import Mathlib

/-!
Verification of the MCP proxy's transport/session/manager layer and its
tool-calling orchestration loop, as a shallow embedding in Lean 4.

The embedding models Python JSON-ish values as the mutual inductive family
`JVal`/`JArr`/`JFields` (an object is an ordered association list, as a
Python `dict` preserves insertion order; a well-formed dict has pairwise
distinct keys, which theorems assume where it matters).  Python `float`
values are modelled as rationals `ℚ` (no NaN/infinity; `int()` of a float
is truncation toward zero).  I/O-performing code is modelled by passing the
outcome of each I/O step (attempt outcomes, parsed input lines, write
results, file existence) as explicit parameters or oracle functions.
-/

mutual
inductive JVal where
  | null
  | bool (b : Bool)
  | int (n : Int)
  | float (q : ℚ)
  | str (s : String)
  | arr (xs : JArr)
  | obj (kvs : JFields)

inductive JArr where
  | nil
  | cons (hd : JVal) (tl : JArr)

inductive JFields where
  | nil
  | cons (k : String) (v : JVal) (tl : JFields)
end

mutual
/-- Structural Boolean equality on `JVal` (the deriving handler does not
cover mutual inductives, so it is written out). -/
def jbeq : JVal → JVal → Bool
  | .null, .null => true
  | .bool a, .bool b => a == b
  | .int a, .int b => a == b
  | .float a, .float b => a == b
  | .str a, .str b => a == b
  | .arr a, .arr b => jbeqArr a b
  | .obj a, .obj b => jbeqFields a b
  | _, _ => false

def jbeqArr : JArr → JArr → Bool
  | .nil, .nil => true
  | .cons x xs, .cons y ys => jbeq x y && jbeqArr xs ys
  | _, _ => false

def jbeqFields : JFields → JFields → Bool
  | .nil, .nil => true
  | .cons k v xs, .cons l w ys => k == l && jbeq v w && jbeqFields xs ys
  | _, _ => false
end

mutual
theorem jbeq_iff : ∀ a b : JVal, jbeq a b = true ↔ a = b
  | .null, .null => by simp [jbeq]
  | .bool _, .bool _ => by simp [jbeq]
  | .int _, .int _ => by simp [jbeq]
  | .float _, .float _ => by simp [jbeq]
  | .str _, .str _ => by simp [jbeq]
  | .arr x, .arr y => by simp [jbeq, jbeqArr_iff x y]
  | .obj x, .obj y => by simp [jbeq, jbeqFields_iff x y]
  | .null, .bool _ | .null, .int _ | .null, .float _ | .null, .str _ | .null, .arr _ | .null, .obj _
  | .bool _, .null | .bool _, .int _ | .bool _, .float _ | .bool _, .str _ | .bool _, .arr _ | .bool _, .obj _
  | .int _, .null | .int _, .bool _ | .int _, .float _ | .int _, .str _ | .int _, .arr _ | .int _, .obj _
  | .float _, .null | .float _, .bool _ | .float _, .int _ | .float _, .str _ | .float _, .arr _ | .float _, .obj _
  | .str _, .null | .str _, .bool _ | .str _, .int _ | .str _, .float _ | .str _, .arr _ | .str _, .obj _
  | .arr _, .null | .arr _, .bool _ | .arr _, .int _ | .arr _, .float _ | .arr _, .str _ | .arr _, .obj _
  | .obj _, .null | .obj _, .bool _ | .obj _, .int _ | .obj _, .float _ | .obj _, .str _ | .obj _, .arr _ => by
    simp [jbeq]

theorem jbeqArr_iff : ∀ xs ys : JArr, jbeqArr xs ys = true ↔ xs = ys
  | .nil, .nil => by simp [jbeqArr]
  | .cons x xs, .cons y ys => by simp [jbeqArr, jbeq_iff x y, jbeqArr_iff xs ys]
  | .nil, .cons _ _ => by simp [jbeqArr]
  | .cons _ _, .nil => by simp [jbeqArr]

theorem jbeqFields_iff : ∀ xs ys : JFields, jbeqFields xs ys = true ↔ xs = ys
  | .nil, .nil => by simp [jbeqFields]
  | .cons k v xs, .cons l w ys => by
    simp [jbeqFields, jbeq_iff v w, jbeqFields_iff xs ys, and_assoc]
  | .nil, .cons _ _ _ => by simp [jbeqFields]
  | .cons _ _ _, .nil => by simp [jbeqFields]
end

instance : DecidableEq JVal := fun a b => decidable_of_iff _ (jbeq_iff a b)
instance : DecidableEq JArr := fun a b => decidable_of_iff _ (jbeqArr_iff a b)
instance : DecidableEq JFields := fun a b => decidable_of_iff _ (jbeqFields_iff a b)

instance {e a : Type} [DecidableEq e] [DecidableEq a] : DecidableEq (Except e a)
  | .ok x, .ok y =>
      if h : x = y then .isTrue (by rw [h]) else .isFalse (fun hh => by cases hh; exact h rfl)
  | .ok _, .error _ => .isFalse (fun hh => by cases hh)
  | .error _, .ok _ => .isFalse (fun hh => by cases hh)
  | .error x, .error y =>
      if h : x = y then .isTrue (by rw [h]) else .isFalse (fun hh => by cases hh; exact h rfl)

/-- `d.get(key)` on a Python dict: first binding of `key`, if any. -/
def dictGet : JFields → String → Option JVal
  | .nil, _ => none
  | .cons k v tl, key => if k = key then some v else dictGet tl key

/-- `key in d` on a Python dict. -/
def hasKey (kvs : JFields) (key : String) : Bool :=
  (dictGet kvs key).isSome

/-- `d.get(key, default)` on a Python dict. -/
def jgetD (kvs : JFields) (key : String) (d : JVal) : JVal :=
  (dictGet kvs key).getD d

/-- `d.pop(key, None)`: drop the binding of `key` (the first, which is the
only one on a well-formed dict). -/
def removeKey : JFields → String → JFields
  | .nil, _ => .nil
  | .cons k v tl, key => if k = key then tl else .cons k v (removeKey tl key)

/-- `d[key] = val` on a Python dict: overwrite in place if the key exists,
otherwise append as the newest key. -/
def setKey : JFields → String → JVal → JFields
  | .nil, key, val => .cons key val .nil
  | .cons k v tl, key, val =>
      if k = key then .cons k val tl else .cons k v (setKey tl key val)

/-- Append a fresh binding at the end (used when the key is known absent). -/
def appendField : JFields → String → JVal → JFields
  | .nil, k, v => .cons k v .nil
  | .cons k0 v0 tl, k, v => .cons k0 v0 (appendField tl k v)

/-- The keys of a dict, in order. -/
def keysList : JFields → List String
  | .nil => []
  | .cons k _ tl => k :: keysList tl

/-- Python truthiness of a JSON value (`bool(v)`). -/
def jFalsy : JVal → Bool
  | .null => true
  | .bool b => !b
  | .int n => n = 0
  | .float q => q = 0
  | .str s => s = ""
  | .arr .nil => true
  | .obj .nil => true
  | _ => false

/-- `"target" in xs` for a Python list: string elements equal to `target`
(Python `==` between a `str` and a non-`str` JSON value is `False`). -/
def jarrHasStr : JArr → String → Bool
  | .nil, _ => false
  | .cons (.str s) tl, t => s = t || jarrHasStr tl t
  | .cons _ tl, t => jarrHasStr tl t

/-- `int(f)` for a Python float: truncation toward zero. -/
def pyTruncOfRat (q : ℚ) : Int :=
  q.num.tdiv q.den

/-- `s.isdigit()`, restricted to ASCII digits (the strings the code meets
are ASCII; Python additionally accepts some Unicode digit classes). -/
def pyIsDigits (s : String) : Bool :=
  !s.data.isEmpty && s.data.all Char.isDigit

/-- `int(s)` for a string of ASCII digits. -/
def pyIntOfDigits (s : String) : Int :=
  (s.data.foldl (fun a c => a * 10 + (c.toNat - 48)) 0 : Nat)

/-- ASCII whitespace, as `str.strip()` removes it. -/
def isPySpace (c : Char) : Bool :=
  c = ' ' ∨ c = '\t' ∨ c = '\n' ∨ c = '\r' ∨ c = '\x0b' ∨ c = '\x0c'

/-- `s.strip()`: drop leading and trailing whitespace. -/
def pyStrip (s : String) : String :=
  String.mk (((s.data.dropWhile isPySpace).reverse.dropWhile isPySpace).reverse)

/-- Lowercase one ASCII letter (`str.lower()` on the ASCII keys seen
here). -/
def asciiLowerChar (c : Char) : Char :=
  if 'A' ≤ c ∧ c ≤ 'Z' then Char.ofNat (c.toNat + 32) else c

/-- `s.lower()` restricted to ASCII. -/
def asciiLower (s : String) : String :=
  String.mk (s.data.map asciiLowerChar)

/-! ## Schema sanitization (`manager._sanitize_json_schema_for_openai`) -/

/-- `t == "array" or (isinstance(t, list) and "array" in t)` over the
optional `type` field of a schema node. -/
def typeIncludesArray : Option JVal → Bool
  | some (.str s) => s = "array"
  | some (.arr xs) => jarrHasStr xs "array"
  | _ => false

/-- The condition under which the sanitizer injects `items`: the node is an
array schema and carries no `items` key. -/
def needsItems (kvs : JFields) : Bool :=
  typeIncludesArray (dictGet kvs "type") && !(hasKey kvs "items")

mutual
/-- `_sanitize_json_schema_for_openai`: non-dict schemas are returned
unchanged; a dict is copied, `items: {}` is injected when `type` is or
includes `"array"` and `items` is absent, and the sanitizer recurses into
`anyOf`/`oneOf`/`allOf` list elements, `properties` values, `items`, and
an object-valued `additionalProperties`.  The source injects `items` first
and then sanitizes every field including the injected `{}`; sanitizing `{}`
yields `{}` again, so the injected pair is appended after the field-wise
pass, which produces the identical dict. -/
def sanitize_json_schema : JVal → JVal
  | .obj kvs =>
      .obj (if needsItems kvs then
              appendField (sanitizeSchemaFields kvs) "items" (.obj .nil)
            else sanitizeSchemaFields kvs)
  | j => j

def sanitizeSchemaFields : JFields → JFields
  | .nil => .nil
  | .cons k v tl => .cons k (sanitizeSchemaField k v) (sanitizeSchemaFields tl)

def sanitizeSchemaField (k : String) (v : JVal) : JVal :=
  if k = "anyOf" ∨ k = "oneOf" ∨ k = "allOf" then
    match v with
    | .arr xs => .arr (sanitizeSchemaArr xs)
    | w => w
  else if k = "properties" then
    match v with
    | .obj ps => .obj (sanitizeSchemaProps ps)
    | w => w
  else if k = "items" then sanitize_json_schema v
  else if k = "additionalProperties" then
    match v with
    | .obj ps => sanitize_json_schema (.obj ps)
    | w => w
  else v

def sanitizeSchemaArr : JArr → JArr
  | .nil => .nil
  | .cons x xs => .cons (sanitize_json_schema x) (sanitizeSchemaArr xs)

def sanitizeSchemaProps : JFields → JFields
  | .nil => .nil
  | .cons k v tl => .cons k (sanitize_json_schema v) (sanitizeSchemaProps tl)
end

mutual
/-- The invariant claimed of sanitized schemas: on every node reachable
through the sanitizer's recursion edges (`anyOf`/`oneOf`/`allOf` list
elements, `properties` values, `items`, object-valued
`additionalProperties`), a `type` that is or includes `"array"` has a
sibling `items` key. -/
def schemaArrayOk : JVal → Bool
  | .obj kvs =>
      (!(typeIncludesArray (dictGet kvs "type")) || hasKey kvs "items")
        && schemaArrayOkFields kvs
  | _ => true

def schemaArrayOkFields : JFields → Bool
  | .nil => true
  | .cons k v tl => schemaArrayOkField k v && schemaArrayOkFields tl

def schemaArrayOkField (k : String) (v : JVal) : Bool :=
  if k = "anyOf" ∨ k = "oneOf" ∨ k = "allOf" then
    match v with
    | .arr xs => schemaArrayOkArr xs
    | _ => true
  else if k = "properties" then
    match v with
    | .obj ps => schemaArrayOkProps ps
    | _ => true
  else if k = "items" then schemaArrayOk v
  else if k = "additionalProperties" then
    match v with
    | .obj ps => schemaArrayOk (.obj ps)
    | _ => true
  else true

def schemaArrayOkArr : JArr → Bool
  | .nil => true
  | .cons x xs => schemaArrayOk x && schemaArrayOkArr xs

def schemaArrayOkProps : JFields → Bool
  | .nil => true
  | .cons _ v tl => schemaArrayOk v && schemaArrayOkProps tl
end


theorem dictGet_sanitizeSchemaFields :
    ∀ (kvs : JFields) (key : String),
      dictGet (sanitizeSchemaFields kvs) key
        = (dictGet kvs key).map (sanitizeSchemaField key)
  | .nil, key => by simp [dictGet, sanitizeSchemaFields]
  | .cons k v tl, key => by
      by_cases h : k = key
      · subst h; simp [dictGet, sanitizeSchemaFields]
      · simp [dictGet, sanitizeSchemaFields, h, dictGet_sanitizeSchemaFields tl key]

theorem hasKey_sanitizeSchemaFields (kvs : JFields) (key : String) :
    hasKey (sanitizeSchemaFields kvs) key = hasKey kvs key := by
  rw [hasKey, hasKey, dictGet_sanitizeSchemaFields]
  cases dictGet kvs key <;> rfl

theorem dictGet_appendField_of_none :
    ∀ (kvs : JFields) (k : String) (v : JVal) (key : String),
      dictGet kvs key = none →
      dictGet (appendField kvs k v) key = if k = key then some v else none
  | .nil, k, v, key, _ => by simp [dictGet, appendField]
  | .cons k0 v0 tl, k, v, key, h => by
      by_cases hk : k0 = key
      · simp [dictGet, hk] at h
      · simp only [dictGet, hk, if_neg, ite_false] at h
        simp [appendField, dictGet, hk, dictGet_appendField_of_none tl k v key h]

theorem schemaArrayOkFields_appendField :
    ∀ (kvs : JFields) (k : String) (v : JVal),
      schemaArrayOkFields (appendField kvs k v)
        = (schemaArrayOkFields kvs && schemaArrayOkField k v)
  | .nil, k, v => by simp [appendField, schemaArrayOkFields]
  | .cons k0 v0 tl, k, v => by
      simp [appendField, schemaArrayOkFields, schemaArrayOkFields_appendField tl k v,
        Bool.and_assoc]

theorem sanitizeSchemaField_type (v : JVal) :
    sanitizeSchemaField "type" v = v := by
  cases v <;> simp [sanitizeSchemaField]

theorem sanitizeSchemaField_items (v : JVal) :
    sanitizeSchemaField "items" v = sanitize_json_schema v := by
  cases v <;> simp [sanitizeSchemaField]

theorem schemaArrayOkField_items (v : JVal) :
    schemaArrayOkField "items" v = schemaArrayOk v := by
  cases v <;> simp [schemaArrayOkField]

theorem sanitize_obj_shape (ps : JFields) :
    sanitize_json_schema (.obj ps)
      = .obj (if needsItems ps then
                appendField (sanitizeSchemaFields ps) "items" (.obj .nil)
              else sanitizeSchemaFields ps) := by
  rw [sanitize_json_schema]

mutual
theorem sanitize_schemaArrayOk : ∀ j : JVal, schemaArrayOk (sanitize_json_schema j) = true
  | .null => by simp [sanitize_json_schema, schemaArrayOk]
  | .bool _ => by simp [sanitize_json_schema, schemaArrayOk]
  | .int _ => by simp [sanitize_json_schema, schemaArrayOk]
  | .float _ => by simp [sanitize_json_schema, schemaArrayOk]
  | .str _ => by simp [sanitize_json_schema, schemaArrayOk]
  | .arr _ => by simp [sanitize_json_schema, schemaArrayOk]
  | .obj kvs => by
      rw [sanitize_obj_shape]
      cases hni : needsItems kvs with
      | true =>
          have hni2 := hni
          rw [needsItems, Bool.and_eq_true, Bool.not_eq_true'] at hni2
          have hitems : dictGet kvs "items" = none := by
            cases hd : dictGet kvs "items" with
            | none => rfl
            | some w =>
                have h2 := hni2.2
                rw [hasKey, hd] at h2
                simp at h2
          have hfnone : dictGet (sanitizeSchemaFields kvs) "items" = none := by
            rw [dictGet_sanitizeSchemaFields, hitems]; rfl
          have h1 : hasKey (appendField (sanitizeSchemaFields kvs) "items" (.obj .nil)) "items"
              = true := by
            rw [hasKey, dictGet_appendField_of_none _ _ _ _ hfnone]
            simp
          rw [if_pos rfl, schemaArrayOk, h1, schemaArrayOkFields_appendField,
            sanitizeSchemaFields_schemaArrayOk kvs]
          have hfield : schemaArrayOkField "items" (.obj .nil) = true := by
            rw [schemaArrayOkField_items]
            simp [schemaArrayOk, schemaArrayOkFields, typeIncludesArray, dictGet]
          rw [hfield]
          simp
      | false =>
          rw [if_neg (by simp [hni]), schemaArrayOk]
          have htype : typeIncludesArray (dictGet (sanitizeSchemaFields kvs) "type")
              = typeIncludesArray (dictGet kvs "type") := by
            rw [dictGet_sanitizeSchemaFields]
            cases dictGet kvs "type" with
            | none => rfl
            | some w => simp [sanitizeSchemaField_type]
          rw [htype, hasKey_sanitizeSchemaFields, sanitizeSchemaFields_schemaArrayOk kvs]
          have hcase : typeIncludesArray (dictGet kvs "type") = false
              ∨ hasKey kvs "items" = true := by
            cases ht : typeIncludesArray (dictGet kvs "type") with
            | false => exact Or.inl rfl
            | true =>
                cases hk : hasKey kvs "items" with
                | true => exact Or.inr rfl
                | false =>
                    exfalso
                    rw [needsItems, ht, hk] at hni
                    simp at hni
          rcases hcase with h | h <;> simp [h]

theorem sanitizeSchemaFields_schemaArrayOk :
    ∀ kvs : JFields, schemaArrayOkFields (sanitizeSchemaFields kvs) = true
  | .nil => by rw [sanitizeSchemaFields, schemaArrayOkFields]
  | .cons k v tl => by
      rw [sanitizeSchemaFields, schemaArrayOkFields,
        sanitizeSchemaField_schemaArrayOk k v, sanitizeSchemaFields_schemaArrayOk tl]
      rfl

theorem sanitizeSchemaField_schemaArrayOk :
    ∀ (k : String) (v : JVal), schemaArrayOkField k (sanitizeSchemaField k v) = true
  | k, .null => by
      by_cases h1 : k = "anyOf" ∨ k = "oneOf" ∨ k = "allOf" <;>
        by_cases h2 : k = "properties" <;>
          by_cases h3 : k = "items" <;>
            by_cases h4 : k = "additionalProperties" <;>
              simp [sanitizeSchemaField, schemaArrayOkField, h1, h2, h3, h4,
                sanitize_json_schema, schemaArrayOk]
  | k, .bool b => by
      by_cases h1 : k = "anyOf" ∨ k = "oneOf" ∨ k = "allOf" <;>
        by_cases h2 : k = "properties" <;>
          by_cases h3 : k = "items" <;>
            by_cases h4 : k = "additionalProperties" <;>
              simp [sanitizeSchemaField, schemaArrayOkField, h1, h2, h3, h4,
                sanitize_json_schema, schemaArrayOk]
  | k, .int n => by
      by_cases h1 : k = "anyOf" ∨ k = "oneOf" ∨ k = "allOf" <;>
        by_cases h2 : k = "properties" <;>
          by_cases h3 : k = "items" <;>
            by_cases h4 : k = "additionalProperties" <;>
              simp [sanitizeSchemaField, schemaArrayOkField, h1, h2, h3, h4,
                sanitize_json_schema, schemaArrayOk]
  | k, .float q => by
      by_cases h1 : k = "anyOf" ∨ k = "oneOf" ∨ k = "allOf" <;>
        by_cases h2 : k = "properties" <;>
          by_cases h3 : k = "items" <;>
            by_cases h4 : k = "additionalProperties" <;>
              simp [sanitizeSchemaField, schemaArrayOkField, h1, h2, h3, h4,
                sanitize_json_schema, schemaArrayOk]
  | k, .str s => by
      by_cases h1 : k = "anyOf" ∨ k = "oneOf" ∨ k = "allOf" <;>
        by_cases h2 : k = "properties" <;>
          by_cases h3 : k = "items" <;>
            by_cases h4 : k = "additionalProperties" <;>
              simp [sanitizeSchemaField, schemaArrayOkField, h1, h2, h3, h4,
                sanitize_json_schema, schemaArrayOk]
  | k, .arr xs => by
      by_cases h1 : k = "anyOf" ∨ k = "oneOf" ∨ k = "allOf"
      · simp [sanitizeSchemaField, schemaArrayOkField, h1,
          sanitizeSchemaArr_schemaArrayOk xs]
      · by_cases h2 : k = "properties"
        · simp [sanitizeSchemaField, schemaArrayOkField, h1, h2]
        · by_cases h3 : k = "items"
          · subst h3
            rw [sanitizeSchemaField_items, schemaArrayOkField_items]
            exact sanitize_schemaArrayOk (.arr xs)
          · by_cases h4 : k = "additionalProperties" <;>
              simp [sanitizeSchemaField, schemaArrayOkField, h1, h2, h3, h4]
  | k, .obj ps => by
      by_cases h1 : k = "anyOf" ∨ k = "oneOf" ∨ k = "allOf"
      · simp [sanitizeSchemaField, schemaArrayOkField, h1]
      · by_cases h2 : k = "properties"
        · simp [sanitizeSchemaField, schemaArrayOkField, h1, h2,
            sanitizeSchemaProps_schemaArrayOk ps]
        · by_cases h3 : k = "items"
          · subst h3
            rw [sanitizeSchemaField_items, schemaArrayOkField_items]
            exact sanitize_schemaArrayOk (.obj ps)
          · by_cases h4 : k = "additionalProperties"
            · have hm := sanitize_schemaArrayOk (.obj ps)
              rw [sanitize_obj_shape] at hm
              simp [sanitizeSchemaField, schemaArrayOkField, h1, h2, h3, h4,
                sanitize_obj_shape, hm]
            · simp [sanitizeSchemaField, schemaArrayOkField, h1, h2, h3, h4]

theorem sanitizeSchemaArr_schemaArrayOk :
    ∀ xs : JArr, schemaArrayOkArr (sanitizeSchemaArr xs) = true
  | .nil => by rw [sanitizeSchemaArr, schemaArrayOkArr]
  | .cons x xs => by
      rw [sanitizeSchemaArr, schemaArrayOkArr,
        sanitize_schemaArrayOk x, sanitizeSchemaArr_schemaArrayOk xs]
      rfl

theorem sanitizeSchemaProps_schemaArrayOk :
    ∀ ps : JFields, schemaArrayOkProps (sanitizeSchemaProps ps) = true
  | .nil => by rw [sanitizeSchemaProps, schemaArrayOkProps]
  | .cons k v tl => by
      rw [sanitizeSchemaProps, schemaArrayOkProps,
        sanitize_schemaArrayOk v, sanitizeSchemaProps_schemaArrayOk tl]
      rfl
end

/-- C1: every JSON value passed to the Manager's schema sanitization comes
back with the invariant that any node whose `type` is `"array"` or a list
containing `"array"` carries a sibling `items` key, recursively along the
sanitizer's recursion edges: `anyOf`/`oneOf`/`allOf` lists, `properties`
values, `items`, and object-valued `additionalProperties`. -/
theorem C1_sanitized_schemas_have_array_items :
    ∀ j : JVal, schemaArrayOk (sanitize_json_schema j) = true :=
  fun j => sanitize_schemaArrayOk j

/-! ## Filesystem safety guard (`safety.py`) -/

/-- The key names treated as path parameters (`PATH_LIKE_KEYS`). -/
def PATH_LIKE_KEYS : List String :=
  ["path", "file_path", "filepath", "filename", "directory", "dir", "target"]

/-- A POSIX path as `pathlib` sees it: absoluteness plus components.
`Path(raw)` drops empty components and `"."`. -/
structure PyPath where
  isAbs : Bool
  comps : List String
  deriving DecidableEq

/-- Split a raw path string at `/` separators. -/
def splitSlashes : List Char → List (List Char)
  | [] => [[]]
  | c :: cs =>
      let r := splitSlashes cs
      if c = '/' then [] :: r
      else
        match r with
        | hd :: tl => (c :: hd) :: tl
        | [] => [[c]]

/-- `Path(raw)` for a raw string: a leading `/` makes it absolute, and
empty components and `"."` are dropped. -/
def parsePath (raw : String) : PyPath :=
  { isAbs := match raw.data with
      | '/' :: _ => true
      | _ => false
    comps := ((splitSlashes raw.data).map String.mk).filter
      (fun c => ¬(c = "" ∨ c = ".")) }

/-- `.resolve()` on an absolute path, modelled lexically (no symlinks in
the model): `".."` removes the previous component and is a no-op at the
root. -/
def normalizeComps (cs : List String) : List String :=
  (cs.foldl (fun acc c => if c = ".." then acc.drop 1 else c :: acc) []).reverse

/-- `candidate.relative_to(root)` succeeds on two resolved absolute paths
exactly when the root's components lead the candidate's
(`_is_within_root`). -/
def isWithinRoot : List String → List String → Bool
  | [], _ => true
  | _ :: _, [] => false
  | r :: rs, c :: cs => r = c && isWithinRoot rs cs

/-- `resolve_and_validate_path(workspace_root, raw)`: relative paths are
joined to the resolved root, absolute paths taken as given; the resolved
candidate must stay within the root or the guard fails.  `workspace_root`
is the component list of the absolute workspace root path. -/
def resolve_and_validate_path (workspace_root : List String) (raw : String) :
    Except String (List String) :=
  let root := normalizeComps workspace_root
  let p := parsePath raw
  let candidate :=
    if ¬ p.isAbs then normalizeComps (root ++ p.comps) else normalizeComps p.comps
  if isWithinRoot root candidate then .ok candidate
  else .error ("Path escapes WORKSPACE_ROOT: " ++ raw)

mutual
/-- `iter_path_args`: yield `(key, value)` for every dict entry whose value
is a string and whose lowercased key is path-like; recurse into every other
dict value and into list items.  (A string under a non-path-like key
recurses into the string, which yields nothing; that branch is inlined as
the empty list.) -/
def iter_path_args : JVal → List (String × String)
  | .obj kvs => iter_path_fields kvs
  | .arr xs => iter_path_items xs
  | _ => []

def iter_path_fields : JFields → List (String × String)
  | .nil => []
  | .cons k v tl =>
      (match v with
       | .str s =>
           if PATH_LIKE_KEYS.contains (asciiLower k) then [(k, s)] else []
       | w => iter_path_args w)
        ++ iter_path_fields tl

def iter_path_items : JArr → List (String × String)
  | .nil => []
  | .cons x xs => iter_path_args x ++ iter_path_items xs
end

/-- The loop body of `guard_filesystem_tool_args`: validate every yielded
path argument, failing on the first violation. -/
def validate_path_args (root : List String) : List (String × String) → Except String Unit
  | [] => .ok ()
  | (_, raw) :: tl =>
      match resolve_and_validate_path root raw with
      | .ok _ => validate_path_args root tl
      | .error e => .error e

/-- `guard_filesystem_tool_args(workspace_root, tool_name, arguments)`:
no-op on falsy arguments, otherwise validates every path-like argument. -/
def guard_filesystem_tool_args (workspace_root : List String) (tool_name : String)
    (arguments : JVal) : Except String Unit :=
  if jFalsy arguments then .ok ()
  else validate_path_args workspace_root (iter_path_args arguments)

theorem validate_path_args_ok_iff (root : List String) (l : List (String × String)) :
    validate_path_args root l = .ok ()
      ↔ ∀ kv ∈ l, ∃ c, resolve_and_validate_path root kv.2 = .ok c := by
  induction l with
  | nil => simp [validate_path_args]
  | cons kv tl ih =>
      rw [validate_path_args]
      cases hr : resolve_and_validate_path root kv.2 with
      | ok c =>
          simp only [ih, List.mem_cons]
          constructor
          · intro h x hx
            rcases hx with rfl | hx
            · exact ⟨c, hr⟩
            · exact h x hx
          · intro h x hx
            exact h x (Or.inr hx)
      | error e =>
          simp only [List.mem_cons]
          constructor
          · intro h; cases h
          · intro h
            rcases h kv (Or.inl rfl) with ⟨c, hc⟩
            rw [hr] at hc
            cases hc

theorem jFalsy_iter_path_args_nil :
    ∀ args : JVal, jFalsy args = true → iter_path_args args = [] := by
  intro args h
  cases args with
  | null => rfl
  | bool b => rfl
  | int n => rfl
  | float q => rfl
  | str s => rfl
  | arr xs =>
      cases xs with
      | nil => rfl
      | cons x tl => simp [jFalsy] at h
  | obj kvs =>
      cases kvs with
      | nil => rfl
      | cons k v tl => simp [jFalsy] at h

/-- C4: the filesystem guard scans the argument tree for string values
under path-like keys, resolves each against the workspace root (relative
paths joined to the root, absolute paths as given), and the dispatch fails
unless every resolved path stays within the resolved root; in particular
`"../../etc/passwd"` against root `/workspace` fails, and `"sub/file.txt"`
succeeds and resolves to `/workspace/sub/file.txt`. -/
theorem C4_filesystem_guard_confines_paths :
    (∀ (root : List String) (tool : String) (args : JVal),
        guard_filesystem_tool_args root tool args = .ok ()
          ↔ ∀ kv ∈ iter_path_args args, ∃ c, resolve_and_validate_path root kv.2 = .ok c)
    ∧ (∀ (root : List String) (raw : String) (c : List String),
        resolve_and_validate_path root raw = .ok c →
          isWithinRoot (normalizeComps root) c = true)
    ∧ resolve_and_validate_path ["workspace"] "../../etc/passwd"
        = .error "Path escapes WORKSPACE_ROOT: ../../etc/passwd"
    ∧ resolve_and_validate_path ["workspace"] "sub/file.txt"
        = .ok ["workspace", "sub", "file.txt"]
    ∧ guard_filesystem_tool_args ["workspace"] "read_file"
        (.obj (.cons "path" (.str "../../etc/passwd") .nil))
        = .error "Path escapes WORKSPACE_ROOT: ../../etc/passwd"
    ∧ guard_filesystem_tool_args ["workspace"] "read_file"
        (.obj (.cons "path" (.str "sub/file.txt") .nil)) = .ok () := by
  refine ⟨?_, ?_, by decide, by decide, ?_, ?_⟩
  · intro root tool args
    rw [guard_filesystem_tool_args]
    by_cases hf : jFalsy args = true
    · rw [if_pos hf, jFalsy_iter_path_args_nil args hf]
      simp
    · rw [if_neg hf]
      exact validate_path_args_ok_iff root (iter_path_args args)
  · intro root raw c h
    simp only [resolve_and_validate_path] at h
    split at h <;> split at h <;> (try (cases h; assumption)) <;> cases h
  · simp [guard_filesystem_tool_args, jFalsy, iter_path_args, iter_path_fields,
      validate_path_args, PATH_LIKE_KEYS]
    decide
  · simp [guard_filesystem_tool_args, jFalsy, iter_path_args, iter_path_fields,
      validate_path_args, PATH_LIKE_KEYS]
    decide

/-! ## HTTP Tools session: weather-tool argument workaround
(`http_tools_session.call_tool`) -/

/-- The argument normalization performed by `call_tool` before the body is
sent: for `weather.get_current`/`weather.get_forecast` the `timezone` key
is popped and `forecast_days` is forced to an int (`1` when absent,
boolean, null, or unparseable); for every other tool a present non-int
`forecast_days` gets a best-effort coercion (floats truncate, digit
strings parse) and is otherwise left as it was.  A Python `bool` is an
`int` instance, so in the other-tools branch a boolean value is left
unchanged. -/
def call_tool_call_args (name : String) (arguments : JFields) : JFields :=
  if name = "weather.get_current" ∨ name = "weather.get_forecast" then
    let a := removeKey arguments "timezone"
    match dictGet a "forecast_days" with
    | none => setKey a "forecast_days" (.int 1)
    | some .null => setKey a "forecast_days" (.int 1)
    | some (.bool _) => setKey a "forecast_days" (.int 1)
    | some (.int _) => a
    | some (.float q) => setKey a "forecast_days" (.int (pyTruncOfRat q))
    | some (.str s) =>
        if pyIsDigits (pyStrip s) then
          setKey a "forecast_days" (.int (pyIntOfDigits (pyStrip s)))
        else setKey a "forecast_days" (.int 1)
    | some _ => setKey a "forecast_days" (.int 1)
  else
    match dictGet arguments "forecast_days" with
    | some (.float q) => setKey arguments "forecast_days" (.int (pyTruncOfRat q))
    | some (.str s) =>
        if pyIsDigits (pyStrip s) then
          setKey arguments "forecast_days" (.int (pyIntOfDigits (pyStrip s)))
        else arguments
    | _ => arguments

/-- The wire body of `call_tool`:
`\x7b"name": name, "arguments": call_args, "requestId": req_id\x7d`. -/
def call_tool_body (name : String) (arguments : JFields) (req_id : String) : JVal :=
  .obj (.cons "name" (.str name)
    (.cons "arguments" (.obj (call_tool_call_args name arguments))
      (.cons "requestId" (.str req_id) .nil)))

/-- What the weather branch makes of `forecast_days`, stated from the
amended claim's words: keep an int, truncate a float, parse a string of
digits (after stripping), and force everything else — absent, null,
boolean, unparseable — to `1`. -/
def weather_forecast_days_spec : Option JVal → Int
  | none => 1
  | some .null => 1
  | some (.bool _) => 1
  | some (.int n) => n
  | some (.float q) => pyTruncOfRat q
  | some (.str s) => if pyIsDigits (pyStrip s) then pyIntOfDigits (pyStrip s) else 1
  | some (.arr _) => 1
  | some (.obj _) => 1

/-- What the other-tools branch makes of `forecast_days`, stated from the
amended claim's words: floats truncate to an int, digit strings parse to
an int, and every other value (including absent, bool, null, non-digit
strings) is left exactly as supplied. -/
def other_forecast_days_spec : Option JVal → Option JVal
  | none => none
  | some .null => some .null
  | some (.bool b) => some (.bool b)
  | some (.int n) => some (.int n)
  | some (.float q) => some (.int (pyTruncOfRat q))
  | some (.str s) =>
      if pyIsDigits (pyStrip s) then some (.int (pyIntOfDigits (pyStrip s)))
      else some (.str s)
  | some (.arr xs) => some (.arr xs)
  | some (.obj kvs) => some (.obj kvs)

theorem dictGet_removeKey_ne :
    ∀ (l : JFields) (k k2 : String), k2 ≠ k →
      dictGet (removeKey l k) k2 = dictGet l k2
  | .nil, _, _, _ => rfl
  | .cons k0 v0 tl, k, k2, h => by
      by_cases hk : k0 = k
      · subst hk
        rw [removeKey, if_pos rfl, dictGet, if_neg (fun hh => h hh.symm)]
      · rw [removeKey, if_neg hk, dictGet, dictGet]
        by_cases h2 : k0 = k2
        · rw [if_pos h2, if_pos h2]
        · rw [if_neg h2, if_neg h2, dictGet_removeKey_ne tl k k2 h]

theorem dictGet_eq_none_of_not_mem :
    ∀ (l : JFields) (k : String), k ∉ keysList l → dictGet l k = none
  | .nil, _, _ => rfl
  | .cons k0 v0 tl, k, h => by
      rw [keysList] at h
      rw [dictGet, if_neg (fun hh => h (by subst hh; exact List.mem_cons_self _ _))]
      exact dictGet_eq_none_of_not_mem tl k (fun hm => h (List.mem_cons_of_mem _ hm))

theorem dictGet_removeKey_self :
    ∀ (l : JFields) (k : String), (keysList l).Nodup →
      dictGet (removeKey l k) k = none
  | .nil, _, _ => rfl
  | .cons k0 v0 tl, k, hnd => by
      rw [keysList, List.nodup_cons] at hnd
      by_cases hk : k0 = k
      · subst hk
        rw [removeKey, if_pos rfl]
        exact dictGet_eq_none_of_not_mem tl k0 hnd.1
      · rw [removeKey, if_neg hk, dictGet, if_neg hk,
          dictGet_removeKey_self tl k hnd.2]

theorem dictGet_setKey_self :
    ∀ (l : JFields) (k : String) (v : JVal),
      dictGet (setKey l k v) k = some v
  | .nil, k, v => by rw [setKey, dictGet, if_pos rfl]
  | .cons k0 v0 tl, k, v => by
      by_cases hk : k0 = k
      · subst hk
        rw [setKey, if_pos rfl, dictGet, if_pos rfl]
      · rw [setKey, if_neg hk, dictGet, if_neg hk, dictGet_setKey_self tl k v]

theorem dictGet_setKey_ne :
    ∀ (l : JFields) (k k2 : String) (v : JVal), k2 ≠ k →
      dictGet (setKey l k v) k2 = dictGet l k2
  | .nil, k, k2, v, h => by
      simp [setKey, dictGet, Ne.symm h]
  | .cons k0 v0 tl, k, k2, v, h => by
      by_cases hk : k0 = k
      · subst hk
        rw [setKey, if_pos rfl, dictGet, if_neg (fun hh => h hh.symm), dictGet,
          if_neg (fun hh => h hh.symm)]
      · rw [setKey, if_neg hk, dictGet, dictGet]
        by_cases h2 : k0 = k2
        · rw [if_pos h2, if_pos h2]
        · rw [if_neg h2, if_neg h2, dictGet_setKey_ne tl k k2 v h]

/-- C5 (counterexample to the claim as stated): the claim says that for
every tool other than the two weather tools the arguments are sent
unchanged, but `call_tool` also applies a best-effort `forecast_days`
coercion for other tools: calling `weather.geocode` with
`forecast_days = "3"` sends `forecast_days = 3`. -/
theorem C5_cex_other_tool_args_changed :
    call_tool_call_args "weather.geocode" (.cons "forecast_days" (.str "3") .nil)
      ≠ .cons "forecast_days" (.str "3") .nil := by decide

/-- C5 (amended): for `weather.get_current`/`weather.get_forecast` the sent
arguments carry no `timezone` key, `forecast_days` is an integer computed
as the amended claim describes, and every other key is unchanged; for
every other tool name the arguments are sent unchanged except that a
present `forecast_days` is best-effort coerced (float truncated, digit
string parsed) and otherwise left as supplied. -/
theorem C5_weather_args_amended :
    ∀ (name : String) (args : JFields), (keysList args).Nodup →
      ((name = "weather.get_current" ∨ name = "weather.get_forecast") →
          dictGet (call_tool_call_args name args) "timezone" = none
          ∧ dictGet (call_tool_call_args name args) "forecast_days"
              = some (.int (weather_forecast_days_spec (dictGet args "forecast_days")))
          ∧ ∀ k, k ≠ "timezone" → k ≠ "forecast_days" →
              dictGet (call_tool_call_args name args) k = dictGet args k)
      ∧ (¬(name = "weather.get_current" ∨ name = "weather.get_forecast") →
          dictGet (call_tool_call_args name args) "forecast_days"
              = other_forecast_days_spec (dictGet args "forecast_days")
          ∧ ∀ k, k ≠ "forecast_days" →
              dictGet (call_tool_call_args name args) k = dictGet args k) := by
  intro name args hnd
  constructor
  · intro hw
    have htz : dictGet (removeKey args "timezone") "timezone" = none :=
      dictGet_removeKey_self args "timezone" hnd
    have hfd : dictGet (removeKey args "timezone") "forecast_days"
        = dictGet args "forecast_days" :=
      dictGet_removeKey_ne args "timezone" "forecast_days" (by decide)
    rw [call_tool_call_args, if_pos hw]
    simp only [hfd]
    cases hv : dictGet args "forecast_days" with
    | none =>
        dsimp only
        refine ⟨?_, ?_, ?_⟩
        · rw [dictGet_setKey_ne _ _ _ _ (by decide), htz]
        · rw [dictGet_setKey_self, weather_forecast_days_spec]
        · intro k hk1 hk2
          rw [dictGet_setKey_ne _ _ _ _ hk2, dictGet_removeKey_ne _ _ _ hk1]
    | some val =>
        cases val with
        | null =>
            dsimp only
            refine ⟨?_, ?_, ?_⟩
            · rw [dictGet_setKey_ne _ _ _ _ (by decide), htz]
            · rw [dictGet_setKey_self, weather_forecast_days_spec]
            · intro k hk1 hk2
              rw [dictGet_setKey_ne _ _ _ _ hk2, dictGet_removeKey_ne _ _ _ hk1]
        | bool b =>
            dsimp only
            refine ⟨?_, ?_, ?_⟩
            · rw [dictGet_setKey_ne _ _ _ _ (by decide), htz]
            · rw [dictGet_setKey_self, weather_forecast_days_spec]
            · intro k hk1 hk2
              rw [dictGet_setKey_ne _ _ _ _ hk2, dictGet_removeKey_ne _ _ _ hk1]
        | int n =>
            dsimp only
            refine ⟨htz, ?_, ?_⟩
            · rw [hfd, hv, weather_forecast_days_spec]
            · intro k hk1 hk2
              rw [dictGet_removeKey_ne _ _ _ hk1]
        | float q =>
            dsimp only
            refine ⟨?_, ?_, ?_⟩
            · rw [dictGet_setKey_ne _ _ _ _ (by decide), htz]
            · rw [dictGet_setKey_self, weather_forecast_days_spec]
            · intro k hk1 hk2
              rw [dictGet_setKey_ne _ _ _ _ hk2, dictGet_removeKey_ne _ _ _ hk1]
        | str s =>
            dsimp only
            by_cases hdig : pyIsDigits (pyStrip s) = true
            · rw [if_pos hdig]
              refine ⟨?_, ?_, ?_⟩
              · rw [dictGet_setKey_ne _ _ _ _ (by decide), htz]
              · rw [dictGet_setKey_self, weather_forecast_days_spec, if_pos hdig]
              · intro k hk1 hk2
                rw [dictGet_setKey_ne _ _ _ _ hk2, dictGet_removeKey_ne _ _ _ hk1]
            · rw [if_neg hdig]
              refine ⟨?_, ?_, ?_⟩
              · rw [dictGet_setKey_ne _ _ _ _ (by decide), htz]
              · rw [dictGet_setKey_self, weather_forecast_days_spec, if_neg hdig]
              · intro k hk1 hk2
                rw [dictGet_setKey_ne _ _ _ _ hk2, dictGet_removeKey_ne _ _ _ hk1]
        | arr xs =>
            dsimp only
            refine ⟨?_, ?_, ?_⟩
            · rw [dictGet_setKey_ne _ _ _ _ (by decide), htz]
            · rw [dictGet_setKey_self, weather_forecast_days_spec]
            · intro k hk1 hk2
              rw [dictGet_setKey_ne _ _ _ _ hk2, dictGet_removeKey_ne _ _ _ hk1]
        | obj kvs =>
            dsimp only
            refine ⟨?_, ?_, ?_⟩
            · rw [dictGet_setKey_ne _ _ _ _ (by decide), htz]
            · rw [dictGet_setKey_self, weather_forecast_days_spec]
            · intro k hk1 hk2
              rw [dictGet_setKey_ne _ _ _ _ hk2, dictGet_removeKey_ne _ _ _ hk1]
  · intro hnw
    rw [call_tool_call_args, if_neg hnw]
    cases hv : dictGet args "forecast_days" with
    | none =>
        dsimp only
        exact ⟨by rw [hv, other_forecast_days_spec], fun k hk => rfl⟩
    | some val =>
        cases val with
        | null =>
            dsimp only
            exact ⟨by rw [hv, other_forecast_days_spec], fun k hk => rfl⟩
        | bool b =>
            dsimp only
            exact ⟨by rw [hv, other_forecast_days_spec], fun k hk => rfl⟩
        | int n =>
            dsimp only
            exact ⟨by rw [hv, other_forecast_days_spec], fun k hk => rfl⟩
        | float q =>
            dsimp only
            refine ⟨?_, ?_⟩
            · rw [dictGet_setKey_self, other_forecast_days_spec]
            · intro k hk
              rw [dictGet_setKey_ne _ _ _ _ hk]
        | str s =>
            dsimp only
            by_cases hdig : pyIsDigits (pyStrip s) = true
            · rw [if_pos hdig]
              refine ⟨?_, ?_⟩
              · rw [dictGet_setKey_self, other_forecast_days_spec, if_pos hdig]
              · intro k hk
                rw [dictGet_setKey_ne _ _ _ _ hk]
            · rw [if_neg hdig]
              exact ⟨by rw [hv, other_forecast_days_spec, if_neg hdig], fun k hk => rfl⟩
        | arr xs =>
            dsimp only
            exact ⟨by rw [hv, other_forecast_days_spec], fun k hk => rfl⟩
        | obj kvs =>
            dsimp only
            exact ⟨by rw [hv, other_forecast_days_spec], fun k hk => rfl⟩

theorem C5_weather_args_amended_witness :
    dictGet (call_tool_call_args "weather.get_current"
        (.cons "timezone" (.str "Europe/Moscow") (.cons "forecast_days" (.str "x") .nil)))
      "timezone" = none
    ∧ dictGet (call_tool_call_args "weather.get_current"
        (.cons "timezone" (.str "Europe/Moscow") (.cons "forecast_days" (.str "x") .nil)))
      "forecast_days" = some (.int 1) := by
  have h := (C5_weather_args_amended "weather.get_current"
    (.cons "timezone" (.str "Europe/Moscow") (.cons "forecast_days" (.str "x") .nil))
    (by decide)).1 (Or.inl rfl)
  refine ⟨h.1, ?_⟩
  rw [h.2.1]
  decide

/-! ## HTTP Tools transport retry policy
(`http_tools_session._should_retry` / `_retry_delay` / `_request_with_retries`) -/

/-- The exception classes the retry loop distinguishes: httpx timeouts
(a subclass of transport errors), other transport errors, the
`HTTPStatusError` that `raise_for_status` throws, and anything else. -/
inductive ExcKind where
  | timeoutExc
  | transportExc
  | httpStatusExc (status : Nat)
  | otherExc (name : String)
  deriving DecidableEq

/-- What one wire attempt produces: a response with a status code, or a
raised exception. -/
inductive AttemptOutcome where
  | resp (status : Nat)
  | exc (e : ExcKind)
  deriving DecidableEq

/-- The session's retry configuration (`max_retries`,
`backoff_initial_seconds`, `backoff_max_seconds`). -/
structure RetryConfig where
  maxRetries : Nat
  backoffInitial : ℚ
  backoffMax : ℚ
  deriving DecidableEq

/-- `_should_retry(exc, response)`: retry on timeout/transport exceptions;
with a response, retry on 5xx or 429 and never on other statuses. -/
def should_retry (exc : Option ExcKind) (response : Option Nat) : Bool :=
  match exc with
  | some e =>
      match e with
      | .timeoutExc => true
      | .transportExc => true
      | _ => false
  | none =>
      match response with
      | none => false
      | some s => if 500 ≤ s then true else if s = 429 then true else false

/-- `_retry_delay(attempt)`: exponential backoff capped at `backoffMax`,
plus jitter `random() * min(0.25, base)` where `rand ∈ [0, 1)` is the
drawn random number. -/
def retry_delay (cfg : RetryConfig) (attempt : Nat) (rand : ℚ) : ℚ :=
  let base := min (cfg.backoffInitial * 2 ^ attempt) cfg.backoffMax
  base + rand * min (1/4) base

/-- How `_request_with_retries` ends: a successful response (with the
0-based attempt index), `raise_for_status` on the last failing response,
the last exception re-raised, or the generic `RuntimeError`. -/
inductive RetryResult where
  | success (attempt : Nat) (status : Nat)
  | httpError (status : Nat)
  | excError (e : ExcKind)
  | genericFailure
  deriving DecidableEq

/-- The code after the loop: `last_resp.raise_for_status()` (a no-op below
status 400), then `raise last_exc`, then the generic failure. -/
def finalRaise : Option Nat → Option ExcKind → RetryResult
  | some s, le =>
      if 400 ≤ s then .httpError s
      else
        match le with
        | some e => .excError e
        | none => .genericFailure
  | none, some e => .excError e
  | none, none => .genericFailure

/-- One run of the retry loop: its result, the sleeps performed before each
retry (in order), and how many attempts were made. -/
structure RunTrace where
  result : RetryResult
  delays : List ℚ
  attemptsMade : Nat
  deriving DecidableEq

/-- The `for attempt in range(attempts_total)` loop of
`_request_with_retries`, recursing on the remaining fuel with `k` the
0-based attempt index (`fuel + k = attempts_total` throughout).  On a
response: retriable status with budget left sleeps and retries; any other
status ≥ 400 raises `HTTPStatusError` inside the `try`, is caught, is not
retriable, and breaks with both `last_resp` and `last_exc` set; a status
below 400 returns the response.  On an exception: retriable with budget
left sleeps and retries, otherwise break with `last_exc` set.  The
zero-fuel case corresponds to falling off the loop, which the break/return
structure makes unreachable from a positive budget. -/
def retryGo (cfg : RetryConfig) (outcomes : Nat → AttemptOutcome) (rand : Nat → ℚ) :
    Nat → Nat → RunTrace
  | 0, _ => { result := .genericFailure, delays := [], attemptsMade := 0 }
  | fuel+1, k =>
      let total := max 1 (cfg.maxRetries + 1)
      match outcomes k with
      | .resp s =>
          if 400 ≤ s ∧ should_retry none (some s) = true ∧ k < total - 1 then
            let t := retryGo cfg outcomes rand fuel (k+1)
            { result := t.result, delays := retry_delay cfg k (rand k) :: t.delays,
              attemptsMade := t.attemptsMade + 1 }
          else if 400 ≤ s then
            { result := finalRaise (some s) (some (.httpStatusExc s)), delays := [],
              attemptsMade := 1 }
          else
            { result := .success k s, delays := [], attemptsMade := 1 }
      | .exc e =>
          if k < total - 1 ∧ should_retry (some e) none = true then
            let t := retryGo cfg outcomes rand fuel (k+1)
            { result := t.result, delays := retry_delay cfg k (rand k) :: t.delays,
              attemptsMade := t.attemptsMade + 1 }
          else
            { result := finalRaise none (some e), delays := [], attemptsMade := 1 }

/-- `_request_with_retries`, with the attempt outcomes and the random
draws supplied as oracles (`attempts_total = max(1, max_retries + 1)`). -/
def request_with_retries (cfg : RetryConfig) (outcomes : Nat → AttemptOutcome)
    (rand : Nat → ℚ) : RunTrace :=
  retryGo cfg outcomes rand (max 1 (cfg.maxRetries + 1)) 0

/-- An attempt outcome after which the loop is willing to retry. -/
def retriableOutcome : AttemptOutcome → Bool
  | .resp s => should_retry none (some s)
  | .exc e => should_retry (some e) none

theorem retryGo_spec (cfg : RetryConfig) (outcomes : Nat → AttemptOutcome)
    (rand : Nat → ℚ) :
    ∀ fuel k, 1 ≤ fuel → fuel + k = max 1 (cfg.maxRetries + 1) →
      1 ≤ (retryGo cfg outcomes rand fuel k).attemptsMade
      ∧ (retryGo cfg outcomes rand fuel k).attemptsMade ≤ fuel
      ∧ (retryGo cfg outcomes rand fuel k).delays.length + 1
          = (retryGo cfg outcomes rand fuel k).attemptsMade
      ∧ (∀ i, (h : i < (retryGo cfg outcomes rand fuel k).delays.length) →
            (retryGo cfg outcomes rand fuel k).delays.get ⟨i, h⟩
              = retry_delay cfg (k+i) (rand (k+i))
            ∧ retriableOutcome (outcomes (k+i)) = true)
      ∧ (∀ s, (retryGo cfg outcomes rand fuel k).result = .httpError s →
            outcomes (k + (retryGo cfg outcomes rand fuel k).attemptsMade - 1) = .resp s
            ∧ 400 ≤ s)
      ∧ (∀ e, (retryGo cfg outcomes rand fuel k).result = .excError e →
            outcomes (k + (retryGo cfg outcomes rand fuel k).attemptsMade - 1) = .exc e)
      ∧ (retryGo cfg outcomes rand fuel k).result ≠ .genericFailure := by
  intro fuel
  induction fuel with
  | zero => intro k h; omega
  | succ f ih =>
      intro k _ hfk
      rw [retryGo]
      cases ho : outcomes k with
      | resp s =>
          dsimp only
          by_cases hc : 400 ≤ s ∧ should_retry none (some s) = true
              ∧ k < max 1 (cfg.maxRetries + 1) - 1
          · rw [if_pos hc]
            have hf : 1 ≤ f := by omega
            have hfk2 : f + (k + 1) = max 1 (cfg.maxRetries + 1) := by omega
            obtain ⟨h1, h2, h3, h4, h5, h6, h7⟩ := ih (k+1) hf hfk2
            refine ⟨?_, ?_, ?_, ?_, ?_, ?_, ?_⟩
            · dsimp only
              omega
            · dsimp only
              omega
            · dsimp only [List.length_cons]
              omega
            · intro i h
              cases i with
              | zero =>
                  refine ⟨rfl, ?_⟩
                  rw [Nat.add_zero, ho]
                  exact hc.2.1
              | succ i =>
                  dsimp only [List.length_cons] at h
                  have h' : i < (retryGo cfg outcomes rand f (k+1)).delays.length := by omega
                  have heq : k + (i + 1) = k + 1 + i := by omega
                  rw [heq]
                  exact ⟨(h4 i h').1, (h4 i h').2⟩
            · intro s2 hres
              dsimp only at hres ⊢
              have heq : k + ((retryGo cfg outcomes rand f (k+1)).attemptsMade + 1) - 1
                  = k + 1 + (retryGo cfg outcomes rand f (k+1)).attemptsMade - 1 := by omega
              rw [heq]
              exact h5 s2 hres
            · intro e2 hres
              dsimp only at hres ⊢
              have heq : k + ((retryGo cfg outcomes rand f (k+1)).attemptsMade + 1) - 1
                  = k + 1 + (retryGo cfg outcomes rand f (k+1)).attemptsMade - 1 := by omega
              rw [heq]
              exact h6 e2 hres
            · dsimp only
              exact h7
          · rw [if_neg hc]
            by_cases h4s : 400 ≤ s
            · rw [if_pos h4s]
              refine ⟨by dsimp only; omega, by dsimp only; omega, by dsimp only; simp, ?_, ?_, ?_, ?_⟩
              · intro i h
                dsimp only at h
                simp at h
              · intro s2 hres
                dsimp only at hres ⊢
                rw [finalRaise, if_pos h4s] at hres
                cases hres
                refine ⟨?_, h4s⟩
                have heq : k + 1 - 1 = k := by omega
                rw [heq, ho]
              · intro e2 hres
                dsimp only at hres
                rw [finalRaise, if_pos h4s] at hres
                cases hres
              · dsimp only
                rw [finalRaise, if_pos h4s]
                intro hres
                cases hres
            · rw [if_neg h4s]
              refine ⟨by dsimp only; omega, by dsimp only; omega, by dsimp only; simp, ?_, ?_, ?_, ?_⟩
              · intro i h
                dsimp only at h
                simp at h
              · intro s2 hres
                dsimp only at hres
                cases hres
              · intro e2 hres
                dsimp only at hres
                cases hres
              · dsimp only
                intro hres
                cases hres
      | exc e =>
          dsimp only
          by_cases hc : k < max 1 (cfg.maxRetries + 1) - 1 ∧ should_retry (some e) none = true
          · rw [if_pos hc]
            have hf : 1 ≤ f := by omega
            have hfk2 : f + (k + 1) = max 1 (cfg.maxRetries + 1) := by omega
            obtain ⟨h1, h2, h3, h4, h5, h6, h7⟩ := ih (k+1) hf hfk2
            refine ⟨?_, ?_, ?_, ?_, ?_, ?_, ?_⟩
            · dsimp only
              omega
            · dsimp only
              omega
            · dsimp only [List.length_cons]
              omega
            · intro i h
              cases i with
              | zero =>
                  refine ⟨rfl, ?_⟩
                  rw [Nat.add_zero, ho]
                  exact hc.2
              | succ i =>
                  dsimp only [List.length_cons] at h
                  have h' : i < (retryGo cfg outcomes rand f (k+1)).delays.length := by omega
                  have heq : k + (i + 1) = k + 1 + i := by omega
                  rw [heq]
                  exact ⟨(h4 i h').1, (h4 i h').2⟩
            · intro s2 hres
              dsimp only at hres ⊢
              have heq : k + ((retryGo cfg outcomes rand f (k+1)).attemptsMade + 1) - 1
                  = k + 1 + (retryGo cfg outcomes rand f (k+1)).attemptsMade - 1 := by omega
              rw [heq]
              exact h5 s2 hres
            · intro e2 hres
              dsimp only at hres ⊢
              have heq : k + ((retryGo cfg outcomes rand f (k+1)).attemptsMade + 1) - 1
                  = k + 1 + (retryGo cfg outcomes rand f (k+1)).attemptsMade - 1 := by omega
              rw [heq]
              exact h6 e2 hres
            · dsimp only
              exact h7
          · rw [if_neg hc]
            refine ⟨by dsimp only; omega, by dsimp only; omega, by dsimp only; simp, ?_, ?_, ?_, ?_⟩
            · intro i h
              dsimp only at h
              simp at h
            · intro s2 hres
              dsimp only at hres
              rw [finalRaise] at hres
              cases hres
            · intro e2 hres
              dsimp only at hres ⊢
              rw [finalRaise] at hres
              cases hres
              have heq : k + 1 - 1 = k := by omega
              rw [heq, ho]
            · dsimp only
              rw [finalRaise]
              intro hres
              cases hres

/-- C2: over any sequence of wire outcomes and any uniform random draws,
the HTTP Tools retry loop makes at most `maxRetries + 1` attempts, retries
only after a transport-level timeout/connection failure, an HTTP 5xx or an
HTTP 429 (never another 4xx), sleeps before retry `k` exactly
`min(backoffInitial * 2^k, backoffMax)` plus a jitter drawn uniformly from
`[0, min(0.25, delay))`, and after exhausting attempts surfaces the last
HTTP error or the last exception, never the generic failure (which exists
only for the unreachable no-response-no-exception exit). -/
theorem C2_http_tools_retry_policy :
    ∀ (cfg : RetryConfig) (outcomes : Nat → AttemptOutcome) (rand : Nat → ℚ),
      0 < cfg.backoffInitial → 0 < cfg.backoffMax →
      (∀ i, 0 ≤ rand i ∧ rand i < 1) →
      (request_with_retries cfg outcomes rand).attemptsMade ≤ cfg.maxRetries + 1
      ∧ (∀ i, i < (request_with_retries cfg outcomes rand).delays.length →
            retriableOutcome (outcomes i) = true)
      ∧ (∀ i s, i < (request_with_retries cfg outcomes rand).delays.length →
            outcomes i = .resp s → (500 ≤ s ∨ s = 429))
      ∧ (∀ i, (h : i < (request_with_retries cfg outcomes rand).delays.length) →
            ∃ j, (request_with_retries cfg outcomes rand).delays.get ⟨i, h⟩
                = min (cfg.backoffInitial * 2 ^ i) cfg.backoffMax + j
              ∧ 0 ≤ j
              ∧ j < min (1/4) (min (cfg.backoffInitial * 2 ^ i) cfg.backoffMax))
      ∧ (∀ s, (request_with_retries cfg outcomes rand).result = .httpError s →
            outcomes ((request_with_retries cfg outcomes rand).attemptsMade - 1) = .resp s
            ∧ 400 ≤ s)
      ∧ (∀ e, (request_with_retries cfg outcomes rand).result = .excError e →
            outcomes ((request_with_retries cfg outcomes rand).attemptsMade - 1) = .exc e)
      ∧ (request_with_retries cfg outcomes rand).result ≠ .genericFailure := by
  intro cfg outcomes rand hbi hbm hr
  have htot : 1 ≤ max 1 (cfg.maxRetries + 1) := le_max_left _ _
  obtain ⟨h1, h2, h3, h4, h5, h6, h7⟩ :=
    retryGo_spec cfg outcomes rand (max 1 (cfg.maxRetries + 1)) 0 htot (by omega)
  have hbase : ∀ i : Nat, (0:ℚ) < min (cfg.backoffInitial * 2 ^ i) cfg.backoffMax := by
    intro i
    exact lt_min (mul_pos hbi (pow_pos (by norm_num) i)) hbm
  have hq : ∀ i : Nat, (0:ℚ) < min (1/4) (min (cfg.backoffInitial * 2 ^ i) cfg.backoffMax) := by
    intro i
    exact lt_min (by norm_num) (hbase i)
  refine ⟨?_, ?_, ?_, ?_, ?_, ?_, ?_⟩
  · simp only [request_with_retries]
    omega
  · intro i hi
    simp only [request_with_retries] at hi
    have := (h4 i hi).2
    simpa using this
  · intro i s hi hio
    simp only [request_with_retries] at hi
    have hretr := (h4 i hi).2
    rw [Nat.zero_add, hio] at hretr
    by_cases h5x : 500 ≤ s
    · exact Or.inl h5x
    · by_cases h429 : s = 429
      · exact Or.inr h429
      · exfalso
        simp [retriableOutcome, should_retry, h5x, h429] at hretr
  · intro i h
    simp only [request_with_retries] at h ⊢
    refine ⟨rand i * min (1/4) (min (cfg.backoffInitial * 2 ^ i) cfg.backoffMax),
      ?_, ?_, ?_⟩
    · have hd := (h4 i h).1
      rw [Nat.zero_add] at hd
      rw [hd, retry_delay]
    · exact mul_nonneg (hr i).1 (le_of_lt (hq i))
    · exact mul_lt_of_lt_one_left (hq i) (hr i).2
  · intro s hres
    simp only [request_with_retries] at hres ⊢
    have := h5 s hres
    simpa using this
  · intro e hres
    simp only [request_with_retries] at hres ⊢
    have := h6 e hres
    simpa using this
  · simp only [request_with_retries]
    exact h7

theorem C2_http_tools_retry_policy_witness :
    (0:ℚ) < 1/2 ∧ (0:ℚ) < 5
    ∧ (request_with_retries ⟨3, 1/2, 5⟩
        (fun k => if k < 2 then .resp 503 else .resp 200) (fun _ => 1/2)).attemptsMade
        ≤ 3 + 1
    ∧ (request_with_retries ⟨3, 1/2, 5⟩
        (fun k => if k < 2 then .resp 503 else .resp 200) (fun _ => 1/2)).result
        = .success 2 200 := by
  refine ⟨by norm_num, by norm_num, ?_, ?_⟩
  · exact (C2_http_tools_retry_policy ⟨3, 1/2, 5⟩ _ _ (by norm_num) (by norm_num)
      (fun i => ⟨by norm_num, by norm_num⟩)).1
  · decide

/-! ## Tool-calling orchestrator (`chatgpt_client.call_chatgpt`) -/

/-- Collect the `output` items whose `type` is `"function_call"` (their
field lists). -/
def output_function_calls : JArr → List JFields
  | .nil => []
  | .cons x xs =>
      (match x with
       | .obj kvs =>
           if dictGet kvs "type" = some (.str "function_call") then [kvs] else []
       | _ => []) ++ output_function_calls xs

/-- `output = data.get("output") or []`, then the `function_call` items of
a list-shaped output. -/
def function_calls_of (kvs : JFields) : List JFields :=
  let output := match dictGet kvs "output" with
    | none => JVal.arr .nil
    | some v => if jFalsy v then JVal.arr .nil else v
  match output with
  | .arr xs => output_function_calls xs
  | _ => []

/-- `data.get("id")`, accepted only as a nonempty string. -/
def response_id_of (kvs : JFields) : Option String :=
  match dictGet kvs "id" with
  | some (.str s) => if s = "" then none else some s
  | _ => none

/-- The text parts of one message item's `content` list: items whose
`type` is `output_text` or `text` carrying a string `text` (the source
tests the same two conditions as one conjunction). -/
def collect_text_parts : JArr → List String
  | .nil => []
  | .cons c cs =>
      (match c with
       | .obj ckvs =>
           match dictGet ckvs "text" with
           | some (.str t) =>
               if dictGet ckvs "type" = some (.str "output_text")
                  ∨ dictGet ckvs "type" = some (.str "text") then [t] else []
           | _ => []
       | _ => []) ++ collect_text_parts cs

/-- The text of one `output` item: assistant messages only; a list-shaped
`content` contributes its text parts, a nonempty string-shaped `content`
contributes itself (`content = item.get("content") or []` first replaces a
falsy content with the empty list). -/
def message_text_of (item : JVal) : List String :=
  match item with
  | .obj ikvs =>
      if dictGet ikvs "type" = some (.str "message")
         ∧ dictGet ikvs "role" = some (.str "assistant") then
        match dictGet ikvs "content" with
        | some (.arr cs) => collect_text_parts cs
        | some (.str s) => if s = "" then [] else [s]
        | _ => []
      else []
  | _ => []

def extract_text_items : JArr → List String
  | .nil => []
  | .cons x xs => message_text_of x ++ extract_text_items xs

/-- `_extract_text_from_responses`: join the assistant text parts of the
`output` list. -/
def extract_text (kvs : JFields) : String :=
  let output := match dictGet kvs "output" with
    | none => JVal.arr .nil
    | some v => if jFalsy v then JVal.arr .nil else v
  String.join (match output with
    | .arr xs => extract_text_items xs
    | _ => [])

/-- The orchestrator's environment: the upstream response for each round,
`json.loads`/`json.dumps` as oracles, and the Manager dispatch as an
oracle returning either a jsonable result or an exception
`(type name, detail)`. -/
structure ChatEnv where
  responses : Nat → JVal
  parseArgs : String → Option JVal
  dumpResult : JVal → String
  dumpErr : String → String → String
  callTool : String → JVal → Except (String × String) JVal

/-- One `function_call_output` item: the JSON-encoded tool result on
success, the JSON-encoded error envelope on a tool failure. -/
def fc_output_item (env : ChatEnv) (call_id : String) (name : String) (args : JVal) : JVal :=
  .obj (.cons "type" (.str "function_call_output")
    (.cons "call_id" (.str call_id)
      (.cons "output" (.str (match env.callTool name args with
        | .ok r => env.dumpResult r
        | .error p => env.dumpErr p.1 p.2)) .nil)))

/-- The per-round tool execution loop: `call_id = fc.get("call_id") or
fc.get("id")` and the item is skipped unless that is a nonempty string;
`arguments` falls back to the literal string `"\x7b\x7d"` when falsy, and a
parse failure (or non-string arguments) yields empty arguments. -/
def tool_outputs (env : ChatEnv) : List JFields → List JVal
  | [] => []
  | fc :: rest =>
      (match (match dictGet fc "call_id" with
              | none => dictGet fc "id"
              | some v => if jFalsy v then dictGet fc "id" else some v) with
       | some (.str cid) =>
           if cid = "" then []
           else
             let args_raw : JVal := match dictGet fc "arguments" with
               | none => .str "\x7b\x7d"
               | some v => if jFalsy v then .str "\x7b\x7d" else v
             let args : JVal := match args_raw with
               | .str s =>
                   match env.parseArgs s with
                   | some a => a
                   | none => .obj .nil
               | _ => .obj .nil
             let name : String := match dictGet fc "name" with
               | some (.str n) => n
               | _ => ""
             [fc_output_item env cid name args]
       | _ => []) ++ tool_outputs env rest

/-- How one turn of the orchestrator ends: a final assistant answer, the
configuration error for tool calls without a Manager, the missing
response-id error, the crash on a non-object response body, or the
loop-exceeded hard failure. -/
inductive ChatOutcome where
  | finalAnswer (text : String)
  | errNoMcp
  | errNoResponseId
  | nonDictResponse
  | loopExceeded
  deriving DecidableEq

/-- The bounded round budget of the orchestrator. -/
def max_rounds : Nat := 8

/-- The `for _ in range(max_rounds)` loop of `call_chatgpt`, with the
number of upstream requests issued returned alongside the outcome.  Each
iteration issues one request (`env.responses round`); function-call items
trigger the tool loop and a continue with `previous_response_id` set and
only the tool outputs as the next input; a response without function
calls is the final answer; exhausting the budget is the loop-exceeded
failure.  (`prevId` and `inputItems` thread the conversation state; the
HTTP body assembly around them is I/O outside the model.) -/
def tool_loop (env : ChatEnv) (mgrPresent : Bool) :
    Nat → Nat → Option String → List JVal → ChatOutcome × Nat
  | 0, _, _, _ => (.loopExceeded, 0)
  | fuel+1, round, prevId, inputItems =>
      match env.responses round with
      | .obj kvs =>
          let fcs := function_calls_of kvs
          if fcs.isEmpty then (.finalAnswer (extract_text kvs), 1)
          else if mgrPresent = false then (.errNoMcp, 1)
          else
            match response_id_of kvs with
            | none => (.errNoResponseId, 1)
            | some rid =>
                let r := tool_loop env mgrPresent fuel (round+1) (some rid)
                  (tool_outputs env fcs)
                (r.1, r.2 + 1)
      | _ => (.nonDictResponse, 1)

/-- `call_chatgpt`'s tool loop entry: 8 rounds, no
`previous_response_id`, the prepared messages as first input. -/
def call_chatgpt_tool_loop (env : ChatEnv) (mgrPresent : Bool)
    (baseInput : List JVal) : ChatOutcome × Nat :=
  tool_loop env mgrPresent max_rounds 0 none baseInput

theorem tool_loop_all_function_calls (env : ChatEnv) :
    ∀ fuel round prevId inputItems,
      (∀ k, round ≤ k → k < round + fuel →
        ∃ kvs, env.responses k = .obj kvs
          ∧ function_calls_of kvs ≠ []
          ∧ response_id_of kvs ≠ none) →
      tool_loop env true fuel round prevId inputItems = (.loopExceeded, fuel) := by
  intro fuel
  induction fuel with
  | zero => intro round prevId inputItems h; rfl
  | succ f ih =>
      intro round prevId inputItems h
      obtain ⟨kvs, hobj, hfc, hid⟩ := h round (Nat.le_refl _) (by omega)
      rw [tool_loop, hobj]
      dsimp only
      have hie : (function_calls_of kvs).isEmpty = false := by
        cases hl : function_calls_of kvs with
        | nil => exact absurd hl hfc
        | cons a l => rfl
      rw [hie]
      rw [if_neg (by simp), if_neg (by simp)]
      cases hidv : response_id_of kvs with
      | none => exact absurd hidv hid
      | some rid =>
          dsimp only
          rw [ih (round+1) (some rid) (tool_outputs env (function_calls_of kvs))
            (fun k hk1 hk2 => h k (by omega) (by omega))]

/-- C3: when the model endpoint answers every round with at least one
`function_call` item (and, as §6 requires of the endpoint, a usable
response id), and a Manager is active, the orchestrator issues exactly 8
upstream requests and then terminates with the loop-exceeded failure; the
loop is a total function, so it cannot hang, and its outcome is the hard
failure, not a silently truncated final answer. -/
theorem C3_orchestrator_round_bound :
    ∀ (env : ChatEnv) (baseInput : List JVal),
      (∀ k, k < max_rounds →
        ∃ kvs, env.responses k = .obj kvs
          ∧ function_calls_of kvs ≠ []
          ∧ response_id_of kvs ≠ none) →
      call_chatgpt_tool_loop env true baseInput = (.loopExceeded, max_rounds)
      ∧ max_rounds = 8 := by
  intro env base h
  refine ⟨?_, rfl⟩
  exact tool_loop_all_function_calls env max_rounds 0 none base
    (fun k hk1 hk2 => h k (by omega))

theorem C3_orchestrator_round_bound_witness :
    call_chatgpt_tool_loop
      { responses := fun _ => .obj (.cons "id" (.str "r1")
          (.cons "output" (.arr (.cons (.obj (.cons "type" (.str "function_call")
            (.cons "call_id" (.str "c1") (.cons "name" (.str "t")
              (.cons "arguments" (.str "") .nil))))) .nil)) .nil))
        parseArgs := fun _ => none
        dumpResult := fun _ => ""
        dumpErr := fun _ _ => ""
        callTool := fun _ _ => .ok .null }
      true [] = (.loopExceeded, 8) :=
  (C3_orchestrator_round_bound _ []
    (fun k _ => ⟨_, rfl, by decide, by decide⟩)).1

/-! ## Python result values, `to_jsonable`, the fetch guard, and
Manager dispatch (`manager.call_openai_tool`, `config.to_jsonable`,
`safety.guard_fetch_tool_result`) -/

mutual
/-- A Python value as a tool result can be: JSON primitives, lists,
tuples, string-keyed dicts (`to_jsonable` applies `str(k)` to keys, and
keys of real tool results are strings already, so keys are modelled as
strings), or any other object, carried with its `str()` form. -/
inductive PyVal where
  | none
  | bool (b : Bool)
  | int (n : Int)
  | float (q : ℚ)
  | str (s : String)
  | list (xs : PyList)
  | tuple (xs : PyList)
  | dict (kvs : PyDict)
  | obj (reprStr : String)

inductive PyList where
  | nil
  | cons (hd : PyVal) (tl : PyList)

inductive PyDict where
  | nil
  | cons (k : String) (v : PyVal) (tl : PyDict)
end

mutual
/-- `config.to_jsonable`: primitives pass through, dicts and lists map
recursively, tuples become lists, and every other object becomes its
`str()` form. -/
def to_jsonable : PyVal → PyVal
  | .none => .none
  | .bool b => .bool b
  | .int n => .int n
  | .float q => .float q
  | .str s => .str s
  | .dict kvs => .dict (toJsonableDict kvs)
  | .list xs => .list (toJsonableList xs)
  | .tuple xs => .list (toJsonableList xs)
  | .obj r => .str r

def toJsonableList : PyList → PyList
  | .nil => .nil
  | .cons x xs => .cons (to_jsonable x) (toJsonableList xs)

def toJsonableDict : PyDict → PyDict
  | .nil => .nil
  | .cons k v tl => .cons k (to_jsonable v) (toJsonableDict tl)
end

mutual
/-- JSON-safety of a converted value: no tuples and no non-primitive
leaves remain anywhere. -/
def jsonSafe : PyVal → Bool
  | .none => true
  | .bool _ => true
  | .int _ => true
  | .float _ => true
  | .str _ => true
  | .list xs => jsonSafeList xs
  | .tuple _ => false
  | .dict kvs => jsonSafeDict kvs
  | .obj _ => false

def jsonSafeList : PyList → Bool
  | .nil => true
  | .cons x xs => jsonSafe x && jsonSafeList xs

def jsonSafeDict : PyDict → Bool
  | .nil => true
  | .cons _ v tl => jsonSafe v && jsonSafeDict tl
end

mutual
theorem to_jsonable_jsonSafe : ∀ v : PyVal, jsonSafe (to_jsonable v) = true
  | .none => rfl
  | .bool _ => rfl
  | .int _ => rfl
  | .float _ => rfl
  | .str _ => rfl
  | .list xs => by
      rw [to_jsonable, jsonSafe]
      exact toJsonableList_jsonSafe xs
  | .tuple xs => by
      rw [to_jsonable, jsonSafe]
      exact toJsonableList_jsonSafe xs
  | .dict kvs => by
      rw [to_jsonable, jsonSafe]
      exact toJsonableDict_jsonSafe kvs
  | .obj _ => rfl

theorem toJsonableList_jsonSafe : ∀ xs : PyList, jsonSafeList (toJsonableList xs) = true
  | .nil => rfl
  | .cons x xs => by
      rw [toJsonableList, jsonSafeList, to_jsonable_jsonSafe x, toJsonableList_jsonSafe xs]
      rfl

theorem toJsonableDict_jsonSafe : ∀ kvs : PyDict, jsonSafeDict (toJsonableDict kvs) = true
  | .nil => rfl
  | .cons k v tl => by
      rw [toJsonableDict, jsonSafeDict, to_jsonable_jsonSafe v, toJsonableDict_jsonSafe tl]
      rfl
end

/-- `d.get(key)` on a Python dict of result values. -/
def pyDictGet : PyDict → String → Option PyVal
  | .nil, _ => none
  | .cons k v tl, key => if k = key then some v else pyDictGet tl key

/-- `isinstance(status, int)`: Python bools are ints (`True == 1`). -/
def pyIntLike : PyVal → Option Int
  | .int n => some n
  | .bool b => some (if b then 1 else 0)
  | _ => none

/-- The `f"...: \x7bstatus\x7d"` rendering of an int-like status value. -/
def pyIntDisp : PyVal → String
  | .int n => toString n
  | .bool b => if b then "True" else "False"
  | _ => ""

/-- The status check of the fetch guard on one dict:
`obj.get("status", obj.get("statusCode"))` must be within `[200, 299]`
when it is int-like. -/
def fetchStatusError (kvs : PyDict) : Option String :=
  match (match pyDictGet kvs "status" with
         | some v => some v
         | none => pyDictGet kvs "statusCode") with
  | some sv =>
      match pyIntLike sv with
      | some n =>
          if 200 ≤ n ∧ n ≤ 299 then none
          else some ("Fetch tool returned non-2xx status: " ++ pyIntDisp sv)
      | none => none
  | none => none

mutual
/-- The recursive `walk` of `guard_fetch_tool_result`: on a dict, fail on
a non-2xx int-like `status`/`statusCode`, fail on `ok` being exactly
`False`, then walk the values; on a list, walk the items; every other
value passes.  A raise aborts the walk, which the error propagation
mirrors. -/
def guard_fetch_walk : PyVal → Except String Unit
  | .dict kvs =>
      match fetchStatusError kvs with
      | some e => .error e
      | none =>
          match pyDictGet kvs "ok" with
          | some (.bool false) => .error "Fetch tool returned ok=false"
          | _ => guard_fetch_walk_dict kvs
  | .list xs => guard_fetch_walk_list xs
  | _ => .ok ()

def guard_fetch_walk_dict : PyDict → Except String Unit
  | .nil => .ok ()
  | .cons _ v tl =>
      match guard_fetch_walk v with
      | .ok _ => guard_fetch_walk_dict tl
      | .error e => .error e

def guard_fetch_walk_list : PyList → Except String Unit
  | .nil => .ok ()
  | .cons x xs =>
      match guard_fetch_walk x with
      | .ok _ => guard_fetch_walk_list xs
      | .error e => .error e
end

/-- `guard_fetch_tool_result(tool_name, result)` applies the walk to the
whole result. -/
def guard_fetch_tool_result (tool_name : String) (result : PyVal) : Except String Unit :=
  guard_fetch_walk result

/-- A `_ToolBinding`. -/
structure ToolBinding where
  server_name : String
  mcp_tool_name : String
  kind : String

/-- The Manager state that dispatch reads: the workspace root, the
model-facing-name → binding table, and the names of connected sessions. -/
structure ManagerState where
  workspace_root : List String
  tool_bindings : List (String × ToolBinding)
  sessions : List String

/-- `self._tool_bindings.get(name)`. -/
def bindingGet : List (String × ToolBinding) → String → Option ToolBinding
  | [], _ => none
  | (k, b) :: tl, key => if k = key then some b else bindingGet tl key

/-- `MCPManager.call_openai_tool`: look up the binding (unknown-tool error
when absent), look up the connected session (not-connected error when
absent), apply the filesystem guard when the binding's kind is
`filesystem`, call the tool through the session (modelled as an oracle
keyed by server name), apply the fetch guard to the result when the kind
is `fetch`, and return the result deep-converted by `to_jsonable`. -/
def call_openai_tool (st : ManagerState)
    (callTool : String → String → JVal → Except String PyVal)
    (openai_tool_name : String) (arguments : JVal) : Except String PyVal :=
  match bindingGet st.tool_bindings openai_tool_name with
  | none => .error ("Unknown MCP tool: " ++ openai_tool_name)
  | some binding =>
      if st.sessions.contains binding.server_name then
        match (if binding.kind = "filesystem" then
                 guard_filesystem_tool_args st.workspace_root binding.mcp_tool_name arguments
               else .ok ()) with
        | .error e => .error e
        | .ok _ =>
            match callTool binding.server_name binding.mcp_tool_name arguments with
            | .error e => .error e
            | .ok result =>
                match (if binding.kind = "fetch" then
                         guard_fetch_tool_result binding.mcp_tool_name result
                       else .ok ()) with
                | .error e => .error e
                | .ok _ => .ok (to_jsonable result)
      else .error ("MCP server not connected: " ++ binding.server_name)

/-- C6: Manager dispatch fails with the unknown-tool error when no binding
exists; fails with the not-connected error when the binding's server has
no session; applies the filesystem guard before calling the tool exactly
when the kind is `filesystem` (a guard failure surfaces for every oracle,
and for any other kind the workspace root is irrelevant); applies the
fetch guard to the result exactly when the kind is `fetch`; and on
success returns the result deep-converted to JSON-safe primitives, with
non-primitive leaves replaced by their string form. -/
theorem C6_manager_dispatch :
    (∀ st callTool name args, bindingGet st.tool_bindings name = none →
        call_openai_tool st callTool name args = .error ("Unknown MCP tool: " ++ name))
    ∧ (∀ st callTool name args b, bindingGet st.tool_bindings name = some b →
        st.sessions.contains b.server_name = false →
        call_openai_tool st callTool name args
          = .error ("MCP server not connected: " ++ b.server_name))
    ∧ (∀ st callTool name args b e, bindingGet st.tool_bindings name = some b →
        st.sessions.contains b.server_name = true →
        b.kind = "filesystem" →
        guard_filesystem_tool_args st.workspace_root b.mcp_tool_name args = .error e →
        call_openai_tool st callTool name args = .error e)
    ∧ (∀ st callTool name args b, bindingGet st.tool_bindings name = some b →
        st.sessions.contains b.server_name = true →
        b.kind ≠ "filesystem" →
        ∀ root2, call_openai_tool { st with workspace_root := root2 } callTool name args
          = call_openai_tool st callTool name args)
    ∧ (∀ st callTool name args b r e, bindingGet st.tool_bindings name = some b →
        st.sessions.contains b.server_name = true →
        b.kind = "fetch" →
        callTool b.server_name b.mcp_tool_name args = .ok r →
        guard_fetch_tool_result b.mcp_tool_name r = .error e →
        call_openai_tool st callTool name args = .error e)
    ∧ (∀ st callTool name args b r, bindingGet st.tool_bindings name = some b →
        st.sessions.contains b.server_name = true →
        (b.kind = "filesystem" →
          guard_filesystem_tool_args st.workspace_root b.mcp_tool_name args = .ok ()) →
        callTool b.server_name b.mcp_tool_name args = .ok r →
        (b.kind = "fetch" → guard_fetch_tool_result b.mcp_tool_name r = .ok ()) →
        call_openai_tool st callTool name args = .ok (to_jsonable r))
    ∧ (∀ v, jsonSafe (to_jsonable v) = true) := by
  refine ⟨?_, ?_, ?_, ?_, ?_, ?_, to_jsonable_jsonSafe⟩
  · intro st callTool name args hb
    rw [call_openai_tool, hb]
  · intro st callTool name args b hb hs
    rw [call_openai_tool, hb]
    dsimp only
    rw [if_neg (fun hh => by rw [hs] at hh; cases hh)]
  · intro st callTool name args b e hb hs hk hg
    rw [call_openai_tool, hb]
    dsimp only
    rw [if_pos hs, if_pos hk, hg]
  · intro st callTool name args b hb hs hk root2
    rw [call_openai_tool, call_openai_tool, hb]
    dsimp only
    rw [if_pos hs, if_neg hk, if_pos hs, if_neg hk]
  · intro st callTool name args b r e hb hs hk hcall hg
    rw [call_openai_tool, hb]
    dsimp only
    rw [if_pos hs]
    have hnotfs : b.kind ≠ "filesystem" := by rw [hk]; decide
    rw [if_neg hnotfs]
    dsimp only
    rw [hcall]
    dsimp only
    rw [if_pos hk, hg]
  · intro st callTool name args b r hb hs hguard hcall hfetch
    rw [call_openai_tool, hb]
    dsimp only
    rw [if_pos hs]
    by_cases hfs : b.kind = "filesystem"
    · rw [if_pos hfs, hguard hfs]
      dsimp only
      rw [hcall]
      dsimp only
      have hnf : b.kind ≠ "fetch" := by rw [hfs]; decide
      rw [if_neg hnf]
    · rw [if_neg hfs]
      dsimp only
      rw [hcall]
      dsimp only
      by_cases hfe : b.kind = "fetch"
      · rw [if_pos hfe, hfetch hfe]
      · rw [if_neg hfe]

theorem C6_manager_dispatch_witness :
    call_openai_tool ⟨["workspace"], [], []⟩ (fun _ _ _ => .ok .none) "nope" (.obj .nil)
      = .error "Unknown MCP tool: nope" :=
  C6_manager_dispatch.1 ⟨["workspace"], [], []⟩ (fun _ _ _ => .ok .none) "nope"
    (.obj .nil) rfl

/-! ## Subprocess (stdio) transport: pending-request table
(`transports/stdio.py`) -/

/-- The state of one request's future: unresolved, resolved with a
response object, failed with an exception message, or cancelled. -/
inductive FutState where
  | pend
  | resolved (msg : JVal)
  | failed (e : String)
  | cancelled
  deriving DecidableEq

/-- `fut.done()`. -/
def isDone : FutState → Bool
  | .pend => false
  | _ => true

/-- `msg.get("id")` when `isinstance(msg_id, int)`: Python bools are ints,
so a boolean id correlates as `1`/`0`. -/
def msgIdOf (kvs : JFields) : Option Int :=
  match dictGet kvs "id" with
  | some (.int n) => some n
  | some (.bool b) => some (if b then 1 else 0)
  | _ => none

/-- `self._pending.pop(msg_id)` preceded by the membership test: remove
the entry when present. -/
def popId : List (Int × FutState) → Int → List (Int × FutState) × Option FutState
  | [], _ => ([], none)
  | (i, f) :: tl, target =>
      if i = target then (tl, some f)
      else
        let r := popId tl target
        ((i, f) :: r.1, r.2)

/-- One iteration of the reader loop on one input line, already parsed
(`none` models a `json.loads` failure, which is skipped): an object with
an int-like `id` found in the pending table pops that entry and resolves
its future with the parsed object when not already done; everything else
is discarded.  Returns the new table and the settled future, if any. -/
def stdio_process_line (table : List (Int × FutState)) (line : Option JVal) :
    List (Int × FutState) × Option (Int × FutState) :=
  match line with
  | none => (table, none)
  | some m =>
      match m with
      | .obj kvs =>
          match msgIdOf kvs with
          | none => (table, none)
          | some mid =>
              match popId table mid with
              | (t2, none) => (t2, none)
              | (t2, some f) => (t2, some (mid, if isDone f then f else .resolved m))
      | _ => (table, none)

/-- `StdioTransport._reader_loop` over the whole stream until end-of-file:
process each line, and at EOF fail every still-pending request with
`"MCP stdio server closed"` and clear the table.  Returns the final
states of every future that was in the table, and the final table. -/
def stdio_reader_run (lines : List (Option JVal)) (table : List (Int × FutState)) :
    List (Int × FutState) × List (Int × FutState) :=
  match lines with
  | [] =>
      (table.map (fun p =>
        (p.1, if isDone p.2 then p.2 else .failed "MCP stdio server closed")), [])
  | l :: ls =>
      match stdio_process_line table l with
      | (t2, none) => stdio_reader_run ls t2
      | (t2, some settled) =>
          let r := stdio_reader_run ls t2
          (settled :: r.1, r.2)

/-- `StdioTransport.aclose` as it affects the pending table: every future
not yet done is cancelled, and the table is cleared.  (The reader-task
cancel and process terminate are process-level effects outside the
table model.) -/
def stdio_aclose (table : List (Int × FutState)) :
    List (Int × FutState) × List (Int × FutState) :=
  (table.map (fun p => (p.1, if isDone p.2 then p.2 else .cancelled)), [])

/-- Whether a future state is a failure carrying an exception, as the
claim's "resolved with a closed failure" reads. -/
def isClosedFailure : FutState → Bool
  | .failed _ => true
  | _ => false

theorem popId_none_eq : ∀ (table : List (Int × FutState)) (target : Int) ,
    (popId table target).2 = none → (popId table target).1 = table := by
  intro table target
  induction table with
  | nil => intro _; rfl
  | cons p tl ih =>
      rcases p with ⟨i, f⟩
      rw [popId]
      by_cases hi : i = target
      · rw [if_pos hi]
        intro h
        cases h
      · rw [if_neg hi]
        intro h
        dsimp only at h ⊢
        rw [ih h]

theorem popId_some_perm : ∀ (table : List (Int × FutState)) (target : Int) (f : FutState),
    (popId table target).2 = some f →
    (table.map Prod.fst).Perm (target :: (popId table target).1.map Prod.fst) := by
  intro table target
  induction table with
  | nil => intro f h; cases h
  | cons p tl ih =>
      rcases p with ⟨i, f0⟩
      intro f
      rw [popId]
      by_cases hi : i = target
      · rw [if_pos hi]
        intro _
        subst hi
        exact List.Perm.refl _
      · rw [if_neg hi]
        intro h
        dsimp only at h ⊢
        have hperm := ih f h
        simp only [List.map_cons]
        exact (hperm.cons i).trans (List.Perm.swap target i _)

theorem stdio_process_line_none_eq (table : List (Int × FutState)) (l : Option JVal) :
    ∀ t2, stdio_process_line table l = (t2, none) → t2 = table := by
  intro t2
  rw [stdio_process_line.eq_def]
  cases l with
  | none => intro h; cases h; rfl
  | some m =>
      cases m with
      | obj kvs =>
          dsimp only
          cases msgIdOf kvs with
          | none => intro h; cases h; rfl
          | some mid =>
              dsimp only
              cases hp : popId table mid with
              | mk t3 o =>
                  cases o with
                  | none =>
                      dsimp only
                      intro h
                      cases h
                      have := popId_none_eq table mid (by rw [hp])
                      rw [hp] at this
                      exact this
                  | some f => intro h; cases h
      | null => intro h; cases h; rfl
      | bool b => intro h; cases h; rfl
      | int n => intro h; cases h; rfl
      | float q => intro h; cases h; rfl
      | str s => intro h; cases h; rfl
      | arr xs => intro h; cases h; rfl

theorem stdio_process_line_some_perm (table : List (Int × FutState)) (l : Option JVal) :
    ∀ t2 i f, stdio_process_line table l = (t2, some (i, f)) →
      isDone f = true ∧ (table.map Prod.fst).Perm (i :: t2.map Prod.fst) := by
  intro t2 i f
  rw [stdio_process_line.eq_def]
  cases l with
  | none => intro h; cases h
  | some m =>
      cases m with
      | obj kvs =>
          dsimp only
          cases msgIdOf kvs with
          | none => intro h; cases h
          | some mid =>
              dsimp only
              cases hp : popId table mid with
              | mk t3 o =>
                  cases o with
                  | none => dsimp only; intro h; cases h
                  | some f0 =>
                      dsimp only
                      intro h
                      cases h
                      constructor
                      · cases hf0 : isDone f0 with
                        | true => simp [hf0]
                        | false => simp [isDone]
                      · have hpp := popId_some_perm table i f0 (by rw [hp])
                        rw [hp] at hpp
                        exact hpp
      | null => intro h; cases h
      | bool b => intro h; cases h
      | int n => intro h; cases h
      | float q => intro h; cases h
      | str s => intro h; cases h
      | arr xs => intro h; cases h

theorem reader_settle_fst :
    ∀ table : List (Int × FutState),
      ((table.map (fun p =>
          (p.1, if isDone p.2 then p.2 else FutState.failed "MCP stdio server closed"))).map
        Prod.fst) = table.map Prod.fst := by
  intro table
  induction table with
  | nil => rfl
  | cons p tl ih => simp only [List.map_cons, ih]

theorem stdio_reader_run_spec :
    ∀ (lines : List (Option JVal)) (table : List (Int × FutState)),
      (stdio_reader_run lines table).2 = []
      ∧ (∀ p ∈ (stdio_reader_run lines table).1, isDone p.2 = true)
      ∧ ((stdio_reader_run lines table).1.map Prod.fst).Perm (table.map Prod.fst) := by
  intro lines
  induction lines with
  | nil =>
      intro table
      rw [stdio_reader_run]
      refine ⟨rfl, ?_, ?_⟩
      · intro p hp
        rcases List.mem_map.mp hp with ⟨q, hq, rfl⟩
        dsimp only
        cases hd : isDone q.2 with
        | true => simp [hd]
        | false => simp [hd, isDone]
      · dsimp only
        rw [reader_settle_fst]
  | cons l ls ih =>
      intro table
      rw [stdio_reader_run]
      cases hp : stdio_process_line table l with
      | mk t2 o =>
          cases o with
          | none =>
              dsimp only
              have ht := stdio_process_line_none_eq table l t2 hp
              obtain ⟨h1, h2, h3⟩ := ih t2
              exact ⟨h1, h2, ht ▸ h3⟩
          | some settled =>
              dsimp only
              rcases settled with ⟨i, f⟩
              have hsp := stdio_process_line_some_perm table l t2 i f hp
              obtain ⟨h1, h2, h3⟩ := ih t2
              refine ⟨h1, ?_, ?_⟩
              · intro p hp2
                rcases List.mem_cons.mp hp2 with rfl | hmem
                · exact hsp.1
                · exact h2 p hmem
              · simp only [List.map_cons]
                exact (h3.cons i).trans hsp.2.symm

theorem stdio_reader_eof_fails_pending :
    ∀ table : List (Int × FutState), (∀ p ∈ table, p.2 = FutState.pend) →
      (stdio_reader_run [] table).1
        = table.map (fun p => (p.1, FutState.failed "MCP stdio server closed")) := by
  intro table h
  rw [stdio_reader_run]
  dsimp only
  induction table with
  | nil => rfl
  | cons p tl ih =>
      simp only [List.map_cons]
      have hp := h p (List.mem_cons_self _ _)
      rw [hp]
      simp only [isDone]
      exact congrArg _ (ih (fun q hq => h q (List.mem_cons_of_mem _ hq)))

theorem stdio_aclose_spec :
    ∀ table : List (Int × FutState),
      (stdio_aclose table).2 = []
      ∧ (∀ p ∈ (stdio_aclose table).1, isDone p.2 = true)
      ∧ (∀ p ∈ table, p.2 = FutState.pend →
          (p.1, FutState.cancelled) ∈ (stdio_aclose table).1) := by
  intro table
  refine ⟨rfl, ?_, ?_⟩
  · intro p hp
    rcases List.mem_map.mp hp with ⟨q, hq, rfl⟩
    dsimp only
    cases hd : isDone q.2 with
    | true => simp [hd]
    | false => simp [hd, isDone]
  · intro p hp hpend
    rw [stdio_aclose]
    dsimp only
    have he : (fun r : Int × FutState =>
        (r.1, if isDone r.2 then r.2 else FutState.cancelled)) p = (p.1, .cancelled) := by
      dsimp only
      rw [hpend]
      simp [isDone]
    exact he ▸ List.mem_map_of_mem _ hp

/-- C7 (counterexample to the claim as stated): `aclose` resolves pending
requests by cancelling their futures, not by failing them with a
"closed" error; with 2 requests outstanding, both end cancelled and
neither carries a failure message. -/
theorem C7_cex_aclose_cancels_not_fails :
    (stdio_aclose [(1, .pend), (2, .pend)]).1 = [(1, .cancelled), (2, .cancelled)]
    ∧ ∀ p ∈ (stdio_aclose [(1, .pend), (2, .pend)]).1, isClosedFailure p.2 = false := by
  decide

/-- C7 (amended): whenever the reader observes end-of-file, every request
still pending fails with the "MCP stdio server closed" error and the
pending table is cleared (with no future lost: the reported ids are a
permutation of the table's); when `close()` is invoked, every request
still pending is resolved by cancellation — never left pending — and the
table is cleared; in particular end-of-file with 2 pending requests fails
both with the "server closed" error, and `close()` with 2 pending
requests cancels both. -/
theorem C7_stdio_pending_resolution_amended :
    (∀ (lines : List (Option JVal)) (table : List (Int × FutState)),
        (stdio_reader_run lines table).2 = []
        ∧ (∀ p ∈ (stdio_reader_run lines table).1, isDone p.2 = true)
        ∧ ((stdio_reader_run lines table).1.map Prod.fst).Perm (table.map Prod.fst))
    ∧ (∀ table : List (Int × FutState), (∀ p ∈ table, p.2 = FutState.pend) →
        (stdio_reader_run [] table).1
          = table.map (fun p => (p.1, FutState.failed "MCP stdio server closed")))
    ∧ (∀ table : List (Int × FutState),
        (stdio_aclose table).2 = []
        ∧ (∀ p ∈ (stdio_aclose table).1, isDone p.2 = true)
        ∧ (∀ p ∈ table, p.2 = FutState.pend →
            (p.1, FutState.cancelled) ∈ (stdio_aclose table).1))
    ∧ (stdio_reader_run [] [(1, .pend), (2, .pend)]).1
        = [(1, .failed "MCP stdio server closed"), (2, .failed "MCP stdio server closed")]
    ∧ (stdio_aclose [(1, .pend), (2, .pend)]).1 = [(1, .cancelled), (2, .cancelled)] := by
  refine ⟨stdio_reader_run_spec, stdio_reader_eof_fails_pending, stdio_aclose_spec,
    ?_, by decide⟩
  decide

theorem C7_stdio_pending_resolution_amended_witness :
    (stdio_reader_run [] [(7, FutState.pend)]).1 = [(7, .failed "MCP stdio server closed")] := by
  have h := C7_stdio_pending_resolution_amended.2.1 [(7, FutState.pend)] (by decide)
  rw [h]
  decide

/-! ## MCP configuration loading (`config.load_mcp_config`,
`manager._connect_server`) -/

/-- `MCPServerConfig`: the loader stores the raw `command`/`url` values
it validated (strings at runtime for the enum-like fields). -/
structure MCPServerConfig where
  name : String
  transport : String
  command : Option JVal
  url : Option JVal
  kind : String
  http_mode : String
  timeout_seconds : ℚ
  max_retries : Int
  backoff_initial_seconds : ℚ
  backoff_max_seconds : ℚ
  deriving DecidableEq

structure MCPConfig where
  servers : List MCPServerConfig
  deriving DecidableEq

/-- `str(v)` as far as the config loader needs it: strings pass through;
the rendering of non-string values is modelled (config `name` fields are
strings in practice, and falsy values are replaced before `str` runs). -/
def pyStrJ : JVal → String
  | .null => "None"
  | .bool b => if b then "True" else "False"
  | .int n => toString n
  | .float q => toString q
  | .str s => s
  | .arr _ => "[...]"
  | .obj _ => "\x7b...\x7d"

/-- `isinstance(command, list) and all(isinstance(x, str) for x in command)`. -/
def isStrList : JArr → Bool
  | .nil => true
  | .cons (.str _) tl => isStrList tl
  | .cons _ _ => false

/-- The local `_num(name, default)`: a bool is rejected, ints and floats
convert to float, anything else is rejected. -/
def numField (idx : Nat) (s : JFields) (nm : String) (default : ℚ) : Except String ℚ :=
  match dictGet s nm with
  | none => .ok default
  | some (.bool _) =>
      .error ("MCP servers[" ++ toString idx ++ "] invalid '" ++ nm ++ "' (number expected)")
  | some (.int n) => .ok (n : ℚ)
  | some (.float q) => .ok q
  | some _ =>
      .error ("MCP servers[" ++ toString idx ++ "] invalid '" ++ nm ++ "' (number expected)")

/-- The local `_int(name, default)`: a bool is rejected, only ints pass. -/
def intField (idx : Nat) (s : JFields) (nm : String) (default : Int) : Except String Int :=
  match dictGet s nm with
  | none => .ok default
  | some (.bool _) =>
      .error ("MCP servers[" ++ toString idx ++ "] invalid '" ++ nm ++ "' (int expected)")
  | some (.int n) => .ok n
  | some _ =>
      .error ("MCP servers[" ++ toString idx ++ "] invalid '" ++ nm ++ "' (int expected)")

/-- The per-server validation of `load_mcp_config`'s loop body, with the
server index `idx` for the error messages. -/
def parse_server (idx : Nat) (sv : JVal) : Except String MCPServerConfig := do
  let errPre := "MCP servers[" ++ toString idx ++ "] "
  let s ← match sv with
    | .obj s => pure s
    | _ => throw (errPre ++ "must be an object")
  let rawName : JVal := match dictGet s "name" with
    | none => .str ""
    | some v => if jFalsy v then .str "" else v
  let name := pyStrip (pyStrJ rawName)
  if name = "" then throw (errPre ++ "missing 'name'")
  let transport ← match dictGet s "transport" with
    | some (.str "stdio") => pure "stdio"
    | some (.str "http") => pure "http"
    | _ => throw (errPre ++ "invalid 'transport' (expected 'stdio' or 'http')")
  let kind ← match jgetD s "kind" (.str "generic") with
    | .str "filesystem" => pure "filesystem"
    | .str "fetch" => pure "fetch"
    | .str "generic" => pure "generic"
    | _ => throw (errPre ++ "invalid 'kind' (expected filesystem|fetch|generic)")
  let command := dictGet s "command"
  let url := dictGet s "url"
  if transport = "stdio" then
    match command with
    | some (.arr xs) =>
        if isStrList xs then pure ()
        else throw (errPre ++ "transport=stdio requires 'command': [str, ...]")
    | _ => throw (errPre ++ "transport=stdio requires 'command': [str, ...]")
  else
    match url with
    | some (.str u) =>
        if pyStrip u = "" then throw (errPre ++ "transport=http requires 'url'")
        else pure ()
    | _ => throw (errPre ++ "transport=http requires 'url'")
  let http_mode ← match jgetD s "http_mode" (.str "jsonrpc") with
    | .str "jsonrpc" => pure "jsonrpc"
    | .str "mcp_tools" => pure "mcp_tools"
    | _ => throw (errPre ++ "invalid 'http_mode' (expected 'jsonrpc' or 'mcp_tools')")
  let timeout_seconds ← numField idx s "timeout_seconds" 30
  if timeout_seconds ≤ 0 then throw (errPre ++ "invalid 'timeout_seconds' (must be > 0)")
  let max_retries ← intField idx s "max_retries" 3
  if max_retries < 0 then throw (errPre ++ "invalid 'max_retries' (must be >= 0)")
  let backoff_initial_seconds ← numField idx s "backoff_initial_seconds" (1/2)
  if backoff_initial_seconds < 0 then
    throw (errPre ++ "invalid 'backoff_initial_seconds' (must be >= 0)")
  let backoff_max_seconds ← numField idx s "backoff_max_seconds" 5
  if backoff_max_seconds < 0 then
    throw (errPre ++ "invalid 'backoff_max_seconds' (must be >= 0)")
  pure { name := name, transport := transport, command := command, url := url,
         kind := kind, http_mode := http_mode, timeout_seconds := timeout_seconds,
         max_retries := max_retries, backoff_initial_seconds := backoff_initial_seconds,
         backoff_max_seconds := backoff_max_seconds }

/-- The `for idx, s in enumerate(servers_raw)` loop. -/
def parse_servers : Nat → JArr → Except String (List MCPServerConfig)
  | _, .nil => .ok []
  | idx, .cons sv tl => do
      let cfg ← parse_server idx sv
      let rest ← parse_servers (idx+1) tl
      pure (cfg :: rest)

/-- `load_mcp_config(path)`: a falsy path (absent or empty) disables MCP;
a path whose file does not exist raises; otherwise the file's parsed JSON
(`readConfig`, which may itself fail on unreadable/malformed content)
must be an object with a `servers` array, whose entries are validated in
order. -/
def load_mcp_config (path : Option String) (fileExists : String → Bool)
    (readConfig : String → Except String JVal) : Except String (Option MCPConfig) :=
  match path with
  | none => .ok Option.none
  | some p =>
      if p = "" then .ok Option.none
      else if fileExists p = false then
        .error ("MCP config file not found: " ++ p)
      else do
        let raw ← readConfig p
        match (match raw with
               | .obj kvs => dictGet kvs "servers"
               | _ => Option.none) with
        | some (.arr xs) => do
            let servers ← parse_servers 0 xs
            pure (some { servers := servers })
        | _ => throw "MCP config must be an object with a 'servers' array"

/-- What `_connect_server` builds: a session over the stdio transport, a
session over the JSON-RPC HTTP transport, or (never constructed by the
Manager) the HTTP Tools session. -/
inductive SessionDescr where
  | stdioSession (command : JVal)
  | httpJsonRpcSession (url : JVal)
  | httpToolsSession (url : JVal)
  deriving DecidableEq

/-- `MCPManager._connect_server`: `stdio` spawns the subprocess transport
from `command`; anything else constructs `HTTPTransport(url)`, the
JSON-RPC-over-HTTP transport.  `none` models the `assert` tripping on a
missing required field. -/
def connect_server (server : MCPServerConfig) : Option SessionDescr :=
  if server.transport = "stdio" then
    match server.command with
    | none => none
    | some c => some (.stdioSession c)
  else
    match server.url with
    | none => none
    | some u => some (.httpJsonRpcSession u)

/-- C9 (counterexample to the claim as stated): a present path whose file
is missing does not disable MCP quietly — the loader raises the
config-file-not-found error. -/
theorem C9_cex_missing_file_raises :
    load_mcp_config (some "missing.json") (fun _ => false) (fun _ => .ok .null)
      = .error "MCP config file not found: missing.json" := by
  decide

/-- C9 (amended): an absent (or empty) config file path disables MCP with
no error; a non-empty path whose file does not exist raises the
descriptive config error instead. -/
theorem C9_absent_config_amended :
    (∀ (fe : String → Bool) (rc : String → Except String JVal),
        load_mcp_config none fe rc = .ok none)
    ∧ (∀ (fe : String → Bool) (rc : String → Except String JVal),
        load_mcp_config (some "") fe rc = .ok none)
    ∧ (∀ (p : String) (fe : String → Bool) (rc : String → Except String JVal),
        p ≠ "" → fe p = false →
        load_mcp_config (some p) fe rc = .error ("MCP config file not found: " ++ p)) := by
  refine ⟨fun fe rc => rfl, fun fe rc => rfl, ?_⟩
  intro p fe rc hp hfe
  rw [load_mcp_config.eq_def]
  dsimp only
  rw [if_neg hp, if_pos (by rw [hfe])]

theorem C9_absent_config_amended_witness :
    load_mcp_config (some "cfg.json") (fun _ => false) (fun _ => .ok .null)
      = .error "MCP config file not found: cfg.json" :=
  C9_absent_config_amended.2.2 "cfg.json" (fun _ => false) (fun _ => .ok .null)
    (by decide) rfl

/-- C10: for every server whose transport is `"http"`, `_connect_server`
builds the JSON-RPC-over-HTTP transport from the url, whatever
`http_mode` says (the construction ignores `http_mode` entirely), and the
Manager never constructs the HTTP Tools session. -/
theorem C10_manager_http_always_jsonrpc :
    (∀ (server : MCPServerConfig) (u : JVal),
        server.transport = "http" → server.url = some u →
        connect_server server = some (.httpJsonRpcSession u))
    ∧ (∀ (server : MCPServerConfig) (m : String),
        connect_server { server with http_mode := m } = connect_server server)
    ∧ (∀ (server : MCPServerConfig) (u : JVal),
        connect_server server ≠ some (.httpToolsSession u)) := by
  refine ⟨?_, ?_, ?_⟩
  · intro server u ht hu
    rw [connect_server, if_neg (by rw [ht]; decide), hu]
  · intro server m
    rfl
  · intro server u h
    rw [connect_server] at h
    split at h
    · cases hc : server.command with
      | none => rw [hc] at h; cases h
      | some c => rw [hc] at h; simp at h
    · cases hc : server.url with
      | none => rw [hc] at h; cases h
      | some w => rw [hc] at h; simp at h

theorem C10_manager_http_always_jsonrpc_witness :
    connect_server
      { name := "weather", transport := "http", command := Option.none,
        url := some (.str "http://example"), kind := "generic", http_mode := "mcp_tools",
        timeout_seconds := 30, max_retries := 3, backoff_initial_seconds := 1/2,
        backoff_max_seconds := 5 }
      = some (.httpJsonRpcSession (.str "http://example")) :=
  C10_manager_http_always_jsonrpc.1 _ (.str "http://example") rfl rfl

/-! ## Notifications (`jsonrpc.build_notification`, `StdioTransport.notify`,
`HTTPTransport.notify`) -/

/-- `build_notification(method, params)`: a JSON-RPC 2.0 envelope without
an `id`, with `params` included only when not `None`. -/
def build_notification (method : String) (params : Option JVal) : JVal :=
  match params with
  | none => .obj (.cons "jsonrpc" (.str "2.0") (.cons "method" (.str method) .nil))
  | some p =>
      .obj (.cons "jsonrpc" (.str "2.0")
        (.cons "method" (.str method) (.cons "params" p .nil)))

/-- `StdioTransport.notify`: build the envelope and write it as one
newline-terminated JSON line (`json.dumps` and the pipe write supplied as
oracles).  There is no exception handling around the write, so a write
failure propagates to the caller. -/
def stdio_notify (dumps : JVal → String) (writeLine : String → Except String Unit)
    (method : String) (params : Option JVal) : Except String Unit :=
  writeLine (dumps (build_notification method params) ++ "\n")

/-- `HTTPTransport.notify`: POST the envelope inside `try/except
Exception: return`, discarding the response status; every outcome of the
POST yields a normal return. -/
def http_notify (post : JVal → Except String Nat) (method : String)
    (params : Option JVal) : Except String Unit :=
  match post (build_notification method params) with
  | .ok _ => .ok ()
  | .error _ => .ok ()

/-- C8 (counterexample to the claim as stated): the subprocess transport's
`notify` has no exception handling, so a failing pipe write propagates
to the caller instead of returning normally. -/
theorem C8_cex_stdio_notify_propagates :
    stdio_notify (fun _ => "x") (fun _ => .error "BrokenPipeError") "initialized" none
      = .error "BrokenPipeError" := by
  decide

/-- C8 (amended): the HTTP JSON-RPC transport's `notify` returns normally
for every POST outcome, but the subprocess transport's `notify`
propagates a write failure to the caller. -/
theorem C8_notify_error_handling_amended :
    (∀ (post : JVal → Except String Nat) (method : String) (params : Option JVal),
        http_notify post method params = .ok ())
    ∧ (∀ (dumps : JVal → String) (e : String) (method : String) (params : Option JVal),
        stdio_notify dumps (fun _ => .error e) method params = .error e) := by
  constructor
  · intro post method params
    rw [http_notify]
    cases post (build_notification method params) <;> rfl
  · intro dumps e method params
    rfl

theorem C8_notify_error_handling_amended_witness :
    http_notify (fun _ => .error "ConnectError") "initialized" none = .ok () :=
  C8_notify_error_handling_amended.1 (fun _ => .error "ConnectError") "initialized" none
